import Mathlib

/-!
Verification of the reliable interprocess message queue engine of Boost.Log
(`src/ipc_reliable_message_queue_posix.cpp`).

The shared-memory queue header and block array are embedded shallowly:
machine integers become `Nat` (with an explicit `% 2^32` wherever the
source's `uint32_t` arithmetic can actually wrap), the mapped byte region
becomes a function `Nat → Nat` from byte offsets (relative to the start of
the block array) to byte values, and the operations of the engine become
pure state transformers.  Condition-variable signalling is recorded as a
list of events where a claim depends on it; the mutex is not modelled —
every operation below is the critical section executed while the mutex is
held, exactly as in the source.
-/

namespace BoostLog

/-- Size of the `uint32_t` value range; `uint32_t` arithmetic in the source
is arithmetic modulo this constant. -/
def U32 : Nat := 4294967296

/-- Truncation of a `Nat` to the `uint32_t` range. -/
def mod32 (a : Nat) : Nat := a % U32

/-- Subtraction of `uint32_t` values, with wraparound on underflow
(`a - b` computed in C on `uint32_t` operands). -/
def sub32 (a b : Nat) : Nat := (a + (U32 - b % U32)) % U32

/-- Mirrors `boost::log::aux::align_size(size, alignment)`: rounds `size`
up to an integer multiple of `alignment`.  The source computes
`(size + alignment - 1) & ~(alignment - 1)` for a power-of-two alignment,
which equals this division form. -/
def align_size (size alignment : Nat) : Nat :=
  ((size + alignment - 1) / alignment) * alignment

/-- Mirrors `boost::log::aux::is_power_of_2(n)`:
`n != 0 && (n & (n - 1)) == 0`. -/
def is_power_of_2 (n : Nat) : Bool :=
  n != 0 && (n &&& (n - 1)) == 0

/-- Modelled from the spec: `BOOST_LOG_CPU_CACHE_LINE_SIZE` is defined in
`boost/log/detail/config.hpp`, which is not present under `src/`; the spec
describes it as the CPU cache line size used to align the header and to
round the block size.  It is 64 bytes on the targeted platforms. -/
def BOOST_LOG_CPU_CACHE_LINE_SIZE : Nat := 64

/-- Mirrors `block_header::data_alignment` (32 bytes). -/
def data_alignment : Nat := 32

/-- Size in bytes of `struct block_header`, which holds the single
`uint32_t m_size` field. -/
def sizeof_block_header : Nat := 4

/-- Mirrors `block_header::get_header_overhead()`:
`align_size(sizeof(block_header), data_alignment)`. -/
def get_header_overhead : Nat := align_size sizeof_block_header data_alignment

/-- Mirrors `implementation::init_block_size`'s computation of
`m_block_size_log2` from the block size: four conditional shifts plus a
final parity step, operating on the `uint32_t` block size. -/
def init_block_size_log2 (block_size : Nat) : Nat :=
  let p1 : Nat × Nat :=
    if block_size % 65536 = 0 then (block_size / 65536, 16) else (block_size, 0)
  let p2 : Nat × Nat :=
    if p1.1 % 256 = 0 then (p1.1 / 256, p1.2 + 8) else p1
  let p3 : Nat × Nat :=
    if p2.1 % 16 = 0 then (p2.1 / 16, p2.2 + 4) else p2
  let p4 : Nat × Nat :=
    if p3.1 % 4 = 0 then (p3.1 / 4, p3.2 + 2) else p3
  if p4.1 % 2 = 0 then p4.2 + 1 else p4.2

/-- Mirrors `implementation::init_block_size`'s `m_block_size_mask`
(`block_size - 1u`, a `uint32_t` subtraction). -/
def block_size_mask (block_size : Nat) : Nat := sub32 block_size 1

/-- Mirrors `implementation::estimate_block_count(size)`:
`(size + block_header::get_header_overhead() + m_block_size_mask) >> m_block_size_log2`
computed on `uint32_t`, so the sum wraps modulo `2^32` before the shift.
The source's comment documents the intent as
`ceil((size + get_header_overhead()) / block_size)`. -/
def estimate_block_count (block_size msize : Nat) : Nat :=
  mod32 (msize + get_header_overhead + block_size_mask block_size) >>>
    init_block_size_log2 block_size

/-- Ceiling division `⌈a / b⌉` on naturals, the formula the source's
comment (and the spec) use for the block count. -/
def ceil_div (a b : Nat) : Nat := (a + b - 1) / b

/-!  Byte memory.  `mem : Nat → Nat` maps a byte offset within the block
array (offset 0 is the first byte of block 0, i.e. the address returned by
`header::get_block(0)`) to the byte stored there. -/

/-- Mirrors `std::memcpy(base + dst, src + srcOff, n)` into the block
array: byte `dst + i` receives byte `srcOff + i` of the source buffer.
Source buffers are byte buffers, so stored values are reduced mod 256. -/
def memcpy (mem : Nat → Nat) (dst : Nat) (src : Nat → Nat) (srcOff n : Nat) :
    Nat → Nat :=
  fun a => if dst ≤ a ∧ a < dst + n then src (srcOff + (a - dst)) % 256 else mem a

/-- Mirrors the store `block->m_size = v` of the `uint32_t` block-header
field, laid out little-endian at byte offsets `addr..addr+3`. -/
def writeLE32 (mem : Nat → Nat) (addr v : Nat) : Nat → Nat :=
  fun a =>
    if a = addr then v % 256
    else if a = addr + 1 then v / 256 % 256
    else if a = addr + 2 then v / 65536 % 256
    else if a = addr + 3 then v / 16777216 % 256
    else mem a

/-- Mirrors the load `block->m_size` of the `uint32_t` block-header field
stored little-endian at byte offsets `addr..addr+3`. -/
def readLE32 (mem : Nat → Nat) (addr : Nat) : Nat :=
  mem addr % 256 + mem (addr + 1) % 256 * 256 + mem (addr + 2) % 256 * 65536 +
    mem (addr + 3) % 256 * 16777216

/-- Byte range `[addr, addr + n)` of the block array, as a list. -/
def readBytes (mem : Nat → Nat) (addr n : Nat) : List Nat :=
  (List.range n).map (fun i => mem (addr + i))

/-!  Queue state: the mutable fields of `struct header` plus the block
array.  `capacity` (`m_capacity`) and `blockSize` (`m_block_size`) are
written once on creation and never change afterwards. -/

/-- Shared queue state: `m_capacity`, `m_block_size`, `m_size`,
`m_put_pos`, `m_get_pos` of `struct header`, and the byte contents of the
allocation-block array. -/
structure QState where
  capacity : Nat
  blockSize : Nat
  size : Nat
  putPos : Nat
  getPos : Nat
  mem : Nat → Nat

/-- State constructed by `header::header(capacity, block_size)`:
`m_size = m_put_pos = m_get_pos = 0`; newly created POSIX shared memory is
zero-filled after `truncate`, so the block array reads as zero bytes. -/
def initState (capacity blockSize : Nat) : QState :=
  { capacity := capacity, blockSize := blockSize, size := 0, putPos := 0,
    getPos := 0, mem := fun _ => 0 }

/-- Mirrors the expression
`(capacity - pos) * block_size - block_header::get_header_overhead()`
appearing in both `put_message` and `get_message`: the number of payload
bytes available from block `pos` to the end of the block array.  All
operands are `uint32_t`, hence the explicit wraparound. -/
def availBytes (s : QState) (pos : Nat) : Nat :=
  sub32 (mod32 ((s.capacity - pos) * s.blockSize)) get_header_overhead

/-- Mirrors `implementation::put_message(message_data, message_size,
block_count)`: writes the block header at `m_put_pos`, copies the payload
in one or two `memcpy`s (the second starting at block 0 when the message
wraps past the last block), advances `m_put_pos` by `block_count` modulo
`m_capacity` and adds `block_count` to `m_size`.  The `nonempty` signal
emitted when the queue was empty does not change shared state and is not
recorded here. -/
def put_message (s : QState) (data : Nat → Nat) (messageSize blockCount : Nat) :
    QState :=
  let pos := s.putPos
  let mem1 := writeLE32 s.mem (pos * s.blockSize) messageSize
  let writeSize := min (availBytes s pos) messageSize
  let mem2 := memcpy mem1 (pos * s.blockSize + get_header_overhead) data 0 writeSize
  let pos1 := mod32 (pos + blockCount)
  if s.capacity ≤ pos1 then
    let mem3 :=
      if 0 < messageSize - writeSize then
        memcpy mem2 0 data writeSize (messageSize - writeSize)
      else mem2
    { s with mem := mem3, putPos := pos1 - s.capacity,
             size := mod32 (s.size + blockCount) }
  else
    { s with mem := mem2, putPos := pos1, size := mod32 (s.size + blockCount) }

/-- Chunks that `implementation::get_message` passes to the receive
handler, in order: first the pre-wrap bytes starting at `m_get_pos`'s
payload area, then — only when the message wraps past the last block and
bytes remain — the tail read from block 0. -/
def headChunks (s : QState) : List (List Nat) :=
  let pos := s.getPos
  let messageSize := readLE32 s.mem (pos * s.blockSize)
  let blockCount := estimate_block_count s.blockSize messageSize
  let readSize := min (availBytes s pos) messageSize
  let chunk1 := readBytes s.mem (pos * s.blockSize + get_header_overhead) readSize
  if s.capacity ≤ mod32 (pos + blockCount) ∧ 0 < messageSize - readSize then
    [chunk1, readBytes s.mem 0 (messageSize - readSize)]
  else
    [chunk1]

/-- State update performed by `implementation::get_message` after the
handler calls succeed: `m_get_pos` advances by the recomputed block count
modulo `m_capacity` and `m_size` is decreased by it (`uint32_t`
subtraction).  The `nonfull` broadcast does not change shared state. -/
def dequeue (s : QState) : QState :=
  let pos := s.getPos
  let messageSize := readLE32 s.mem (pos * s.blockSize)
  let blockCount := estimate_block_count s.blockSize messageSize
  let pos1 := mod32 (pos + blockCount)
  if s.capacity ≤ pos1 then
    { s with getPos := pos1 - s.capacity, size := sub32 s.size blockCount }
  else
    { s with getPos := pos1, size := sub32 s.size blockCount }

/-- State update performed by `implementation::clear_queue` (and hence by
`clear`): `m_size = 0`, `m_put_pos = 0`, `m_get_pos = 0`.  The `nonfull`
broadcast does not change shared state. -/
def clear_queue (s : QState) : QState :=
  { s with size := 0, putPos := 0, getPos := 0 }

/-!  Receive path.  A receive handler is a C callback
`void handler(void* state, const void* data, uint32_t size)` that may
throw; it is embedded as `σ → List Nat → Except E σ`, where `.error`
models a thrown exception.  `get_message` feeds the handler the chunks of
the head message in order, aborting at the first failure; the shared state
is committed only after every handler call returned, exactly as in the
source, where `m_get_pos` and `m_size` are assigned after the calls. -/

/-- Runs the receive handler over the delivered chunks in order, stopping
at the first thrown exception (as the source's second `handler` call is
never reached when the first one throws). -/
def run_handler {σ E : Type} (handler : σ → List Nat → Except E σ) :
    σ → List (List Nat) → Except E σ
  | st, [] => .ok st
  | st, c :: cs =>
    match handler st c with
    | .error e => .error e
    | .ok st1 => run_handler handler st1 cs

/-- Mirrors `implementation::get_message(handler, state)`: reads the block
header at `m_get_pos`, recomputes the block count, invokes the handler on
the one or two chunks, and — only if no handler call threw — commits the
`dequeue` state update.  On a throw the exception propagates and the
shared state has not been modified (all stores in the source come after
the handler calls). -/
def get_message {σ E : Type} (s : QState) (handler : σ → List Nat → Except E σ)
    (st : σ) : Except E (σ × QState) :=
  match run_handler handler st (headChunks s) with
  | .error e => .error e
  | .ok st1 => .ok (st1, dequeue s)

/-- Mirrors `implementation::try_receive(handler, state)`: observes the
facade-local `m_stop` flag, then under the mutex returns `false` if the
queue is empty, otherwise runs `get_message`.  The second component of the
result is the shared state after the call: unchanged whenever the
operation returns `false` or the handler throws. -/
def try_receive {σ E : Type} (stop : Bool) (s : QState)
    (handler : σ → List Nat → Except E σ) (st : σ) :
    Except E (Bool × σ) × QState :=
  if stop then (.ok (false, st), s)
  else if s.size = 0 then (.ok (false, st), s)
  else
    match get_message s handler st with
    | .error e => (.error e, s)
    | .ok (st1, s1) => (.ok (true, st1), s1)

/-- Outcome of one pass through the blocking loops of `send`/`receive`:
`wouldBlock` stands for reaching the condition-variable `wait` call (after
which the loop re-evaluates). -/
inductive StepOutcome : Type
  | aborted
  | wouldBlock
  | completed

/-- Mirrors one evaluation of `implementation::receive(handler, state)` up
to its suspension point: the `m_stop` observation, the empty-queue test of
the wait loop (`wouldBlock` models reaching `m_nonempty_queue.wait`), and
the `get_message` call.  As in `try_receive`, the second component is the
shared state after the pass. -/
def receive_step {σ E : Type} (stop : Bool) (s : QState)
    (handler : σ → List Nat → Except E σ) (st : σ) :
    Except E (StepOutcome × σ) × QState :=
  if stop then (.ok (.aborted, st), s)
  else if s.size = 0 then (.ok (.wouldBlock, st), s)
  else
    match get_message s handler st with
    | .error e => (.error e, s)
    | .ok (st1, s1) => (.ok (.completed, st1), s1)

/-!  Send path. -/

/-- Modelled from the spec: the `overflow_policy` enumeration is declared
in `boost/log/utility/ipc/reliable_message_queue.hpp` of the later design,
which is not present under `src/` (the header in `src/include` predates
it).  The spec lists exactly two policies, `Block` and `Error`; the source
tests `m_overflow_policy == throw_on_overflow` and otherwise waits. -/
inductive overflow_policy : Type
  | block_on_overflow
  | throw_on_overflow
deriving DecidableEq

/-- Result of one pass through `implementation::send` up to its suspension
point.  `tooLarge` models the `logic_error` thrown when the block count
exceeds the capacity; `capacityError` the `capacity_limit_reached` throw;
`wouldBlock` reaching `m_nonfull_queue.wait`; `placed s1` a completed
`put_message` leaving shared state `s1`. -/
inductive SendStepResult : Type
  | tooLarge
  | aborted
  | capacityError
  | wouldBlock
  | placed (s1 : QState)

/-- Mirrors one evaluation of `implementation::send(message_data,
message_size)` up to its suspension point, in source order: the block
count is estimated and checked against `m_capacity` before `m_stop` is
read and before the mutex is taken; then the wait loop body checks
`m_stop`, the free-space test `(m_capacity - m_size) >= block_count`
(`uint32_t` subtraction), and the overflow policy. -/
def send_step (stop : Bool) (policy : overflow_policy) (s : QState)
    (data : Nat → Nat) (messageSize : Nat) : SendStepResult :=
  let blockCount := estimate_block_count s.blockSize messageSize
  if s.capacity < blockCount then .tooLarge
  else if stop then .aborted
  else if blockCount ≤ sub32 s.capacity s.size then
    .placed (put_message s data messageSize blockCount)
  else if policy = .throw_on_overflow then .capacityError
  else .wouldBlock

/-- Result of `implementation::try_send`: `notSent` models the `false`
returns (stopped facade or not enough free blocks). -/
inductive TrySendResult : Type
  | tooLarge
  | notSent
  | sent (s1 : QState)

/-- Mirrors `implementation::try_send(message_data, message_size)`: the
too-large check precedes the `m_stop` observation and the lock; after
locking, a single free-space test decides between `false` and
`put_message`. -/
def try_send (stop : Bool) (s : QState) (data : Nat → Nat)
    (messageSize : Nat) : TrySendResult :=
  let blockCount := estimate_block_count s.blockSize messageSize
  if s.capacity < blockCount then .tooLarge
  else if stop then .notSent
  else if sub32 s.capacity s.size < blockCount then .notSent
  else .sent (put_message s data messageSize blockCount)

/-!  stop / reset and the fixed-buffer receive handler. -/

/-- Condition-variable notifications issued by an operation. -/
inductive CvEvent : Type
  | nonemptyNotifyAll
  | nonfullNotifyAll
deriving DecidableEq

/-- Mirrors `implementation::stop()`: when the facade-local flag is
already set the call returns at once; otherwise, under the mutex, the
local flag is set and both condition variables are broadcast.  The result
is the new local flag, the shared state after the call (never modified),
and the notifications issued. -/
def stop_op (stop : Bool) (s : QState) : Bool × QState × List CvEvent :=
  if stop then (true, s, [])
  else (true, s, [.nonemptyNotifyAll, .nonfullNotifyAll])

/-- Mirrors `implementation::reset()`: clears the facade-local flag and
touches nothing else. -/
def reset_op (_stop : Bool) (s : QState) : Bool × QState :=
  (false, s)

/-- State of `reliable_message_queue::fixed_buffer_state`: the source
keeps a write cursor (`uint8_t* data`) and the remaining buffer capacity
(`size`); the cursor is embedded as the list of bytes copied so far. -/
structure fixed_buffer_state : Type where
  written : List Nat
  size : Nat
deriving DecidableEq

/-- Mirrors `reliable_message_queue::fixed_buffer_receive_handler`: throws
`bad_alloc` (buffer too small) when the chunk exceeds the remaining buffer
capacity, otherwise copies the chunk and advances the cursor. -/
def fixed_buffer_receive_handler (p : fixed_buffer_state) (chunk : List Nat) :
    Except Unit fixed_buffer_state :=
  if p.size < chunk.length then .error ()
  else .ok { written := p.written ++ chunk, size := p.size - chunk.length }

/-!  Creation: `reliable_message_queue::create` and `open_or_create`
validate that the requested block size is a power of two and then
construct the implementation with the block size rounded up to the cache
line size; `create_region` placement-constructs the header with the
rounded value, which the `block_size()` accessor later reads back. -/

namespace reliable_message_queue

/-- Thrown by `create`/`open_or_create` before anything is mapped. -/
inductive CreateError : Type
  | invalid_argument
deriving DecidableEq

/-- Mirrors `reliable_message_queue::create(name, capacity, block_size,
perms, oflow_policy)` in the case where the segment is newly created:
a non-power-of-two `block_size` is rejected with `std::invalid_argument`;
otherwise the implementation is constructed with
`align_size(block_size, BOOST_LOG_CPU_CACHE_LINE_SIZE)` as the block size
and `create_region` initialises a fresh header. -/
def create (capacity block_size : Nat) : Except CreateError QState :=
  if is_power_of_2 block_size = false then .error .invalid_argument
  else .ok (initState capacity (align_size block_size BOOST_LOG_CPU_CACHE_LINE_SIZE))

/-- Mirrors `reliable_message_queue::open_or_create(...)` in the case
where no segment existed, so `create_region` runs: identical validation
and rounding to `create`. -/
def open_or_create (capacity block_size : Nat) : Except CreateError QState :=
  if is_power_of_2 block_size = false then .error .invalid_argument
  else .ok (initState capacity (align_size block_size BOOST_LOG_CPU_CACHE_LINE_SIZE))

/-- Mirrors the `block_size()` accessor: reads `m_block_size` from the
mapped header. -/
def block_size (s : QState) : Nat := s.blockSize

/-- Mirrors the `capacity()` accessor: reads `m_capacity` from the mapped
header. -/
def capacity (s : QState) : Nat := s.capacity

end reliable_message_queue

/-!  Attach: `implementation::adopt_region` waits for the creator to
publish the header (`m_ref_count > 0`), joins via a CAS increment, and
then validates the ABI tag and the stored block size, detaching through
`close_region` on failure.  The loop is driven by the sequence of
`m_ref_count` values the attacher observes, one per round, embedded as a
function `refObs : Nat → Nat`. -/

/-- Mirrors the constant `wait_loops = 200u` of `adopt_region`. -/
def wait_loops : Nat := 200

/-- Mirrors the constant `spin_loops = 16u` of `adopt_region`. -/
def spin_loops : Nat := 16

/-- Mirrors the constant `spins = 16u` of `adopt_region`. -/
def spins : Nat := 16

/-- Back-off action taken at the end of an unsuccessful round:
`pause n` is the loop of `n` `boost::log::aux::pause()` calls, and
`yieldOrSleep` the `sched_yield` / `pthread_yield` / 1 µs `nanosleep` /
`usleep(1)` alternative. -/
inductive Backoff : Type
  | pause (count : Nat)
  | yieldOrSleep
deriving DecidableEq

/-- Back-off performed after round `i` fails: a 16-iteration pause loop
for the first `spin_loops` rounds, then yield-or-sleep. -/
def backoff_at (i : Nat) : Backoff :=
  if i < spin_loops then .pause spins else .yieldOrSleep

/-- Polling loop of `adopt_region`: starting at round `i` with `fuel`
rounds remaining, returns the first round at which a positive
`m_ref_count` is observed together with the observed value (the CAS then
increments exactly that value), or `none` when the rounds are exhausted. -/
def adopt_poll (refObs : Nat → Nat) : Nat → Nat → Option (Nat × Nat)
  | _, 0 => none
  | i, fuel + 1 =>
    if 0 < refObs i then some (i, refObs i)
    else adopt_poll refObs (i + 1) fuel

/-- Back-off actions performed by the polling loop, in order, until it
attaches or exhausts its rounds. -/
def adopt_backoffs (refObs : Nat → Nat) : Nat → Nat → List Backoff
  | _, 0 => []
  | i, fuel + 1 =>
    if 0 < refObs i then []
    else backoff_at i :: adopt_backoffs refObs (i + 1) fuel

/-- Immutable header fields read by `adopt_region`'s validation. -/
structure SegHeader : Type where
  abiTag : Nat
  capacity : Nat
  blockSize : Nat

/-- Mirrors the reference-count effect of `implementation::close_region`:
`m_ref_count.fetch_sub(1)` returns the previous value; when that previous
value was 1 the caller removes the named segment and destroys the header.
Result: the new count and whether the segment was removed. -/
def close_region (refCount : Nat) : Nat × Bool :=
  (sub32 refCount 1, refCount == 1)

/-- Outcome of `adopt_region`.  `timeout`, `abiMismatch` and
`badBlockSize` are the three `setup_error` throws; the last two record the
reference count after the `close_region` detach and whether that detach
removed the segment. -/
inductive AdoptOutcome : Type
  | timeout
  | abiMismatch (refCountAfter : Nat) (removed : Bool)
  | badBlockSize (refCountAfter : Nat) (removed : Bool)
  | attached (refCount : Nat)

/-- Mirrors `implementation::adopt_region` after mapping: poll
`m_ref_count` for at most `wait_loops` rounds (backing off via
`backoff_at` after each failed round); on timeout throw `setup_error`;
after a successful CAS increment, a wrong ABI tag or a non-power-of-two
stored block size triggers `close_region` and a `setup_error` throw. -/
def adopt_region (localAbiTag : Nat) (hdr : SegHeader) (refObs : Nat → Nat) :
    AdoptOutcome :=
  match adopt_poll refObs 0 wait_loops with
  | none => .timeout
  | some (_, observed) =>
    let ref1 := observed + 1
    if hdr.abiTag ≠ localAbiTag then
      .abiMismatch (close_region ref1).1 (close_region ref1).2
    else if is_power_of_2 hdr.blockSize = false then
      .badBlockSize (close_region ref1).1 (close_region ref1).2
    else .attached ref1

/-!  Reachable states and the structural queue invariant.  `ReachO` closes
the initial state under the three header-mutating operations guarded
exactly as the engine guards them (`send`'s free-space test for
`put_message`, the non-empty test for `get_message`, nothing for
`clear_queue`).  `Reach` additionally requires each accepted message size
to avoid the 32-bit wraparound in `estimate_block_count`; `WF` is the
inductive invariant describing the queued messages. -/

/-- Total number of blocks occupied by the listed message sizes,
each taking `estimate_block_count` blocks. -/
def sumBC (bs : Nat) (msgs : List Nat) : Nat :=
  (msgs.map (estimate_block_count bs)).sum

/-- Block offset (from `m_get_pos`) of the `i`-th queued message: the
blocks of the messages before it. -/
def offAt (bs : Nat) (msgs : List Nat) (i : Nat) : Nat :=
  sumBC bs (msgs.take i)

/-- Structural invariant of a queue state holding the messages `msgs`
(listed oldest first, by payload size): the header bounds, the ring
relation between the positions, and the integrity of each queued message's
stored `block_header::m_size` field. -/
structure WF (s : QState) (msgs : List Nat) : Prop where
  size_eq : s.size = sumBC s.blockSize msgs
  size_le : s.size ≤ s.capacity
  get_lt : s.getPos < s.capacity
  put_lt : s.putPos < s.capacity
  put_eq : s.putPos = (s.getPos + s.size) % s.capacity
  msg_ok : ∀ m ∈ msgs, m + get_header_overhead + (s.blockSize - 1) < U32
  hdr : ∀ i, (h : i < msgs.length) →
    readLE32 s.mem
        (((s.getPos + offAt s.blockSize msgs i) % s.capacity) * s.blockSize) =
      msgs[i]

/-- States reachable from a fresh queue by the header-mutating operations
under exactly the guards of the engine: `put_message` with the block count
computed by `estimate_block_count` when `send`'s free-space test
`(m_capacity - m_size) >= block_count` passes, `dequeue` (the state effect
of `get_message`) when `m_size > 0`, and `clear_queue` unconditionally. -/
inductive ReachO (cap bs : Nat) : QState → Prop
  | init : ReachO cap bs (initState cap bs)
  | put (s : QState) (data : Nat → Nat) (msize : Nat) : ReachO cap bs s →
      estimate_block_count s.blockSize msize ≤ sub32 s.capacity s.size →
      ReachO cap bs (put_message s data msize (estimate_block_count s.blockSize msize))
  | get (s : QState) : ReachO cap bs s → 0 < s.size →
      ReachO cap bs (dequeue s)
  | clearq (s : QState) : ReachO cap bs s → ReachO cap bs (clear_queue s)

/-- Reachable states as in `ReachO`, but with every accepted message size
additionally required to avoid the `uint32_t` wraparound in
`estimate_block_count` (`msize + overhead + (block_size - 1) < 2^32`). -/
inductive Reach (cap bs : Nat) : QState → Prop
  | init : Reach cap bs (initState cap bs)
  | put (s : QState) (data : Nat → Nat) (msize : Nat) : Reach cap bs s →
      msize + get_header_overhead + (s.blockSize - 1) < U32 →
      estimate_block_count s.blockSize msize ≤ sub32 s.capacity s.size →
      Reach cap bs (put_message s data msize (estimate_block_count s.blockSize msize))
  | get (s : QState) : Reach cap bs s → 0 < s.size →
      Reach cap bs (dequeue s)
  | clearq (s : QState) : Reach cap bs s → Reach cap bs (clear_queue s)

/-- Well-formedness of the immutable queue parameters: a nonzero capacity,
a power-of-two block size exceeding the block-header overhead (any block
size accepted by `create` satisfies this), and a block array smaller than
the `uint32_t` range. -/
def GoodParams (cap bs : Nat) : Prop :=
  0 < cap ∧ get_header_overhead < bs ∧ (∃ k, k < 32 ∧ bs = 2 ^ k) ∧
    cap * bs < U32

/-!  Concrete histories used to evaluate individual claims. -/

/-- History on a fresh 4-block queue: a 96-byte message (2 blocks). -/
def bounds_cx_s1 : QState :=
  put_message (initState 4 64) (fun _ => 0) 96
    (estimate_block_count (initState 4 64).blockSize 96)

/-- Second 96-byte message; the queue is now full and `m_put_pos` has
wrapped to 0. -/
def bounds_cx_s2 : QState :=
  put_message bounds_cx_s1 (fun _ => 0) 96
    (estimate_block_count bounds_cx_s1.blockSize 96)

/-- The first message is received; two blocks are free again. -/
def bounds_cx_s3 : QState := dequeue bounds_cx_s2

/-- A message of size `2^32 - 1` is sent: the wrapped estimate is 1 block,
so the send guard passes, and the 224-byte first `memcpy` overwrites the
queued message's block header at block 2. -/
def bounds_cx_s4 : QState :=
  put_message bounds_cx_s3 (fun i => if i = 98 then 1 else 0) 4294967295
    (estimate_block_count bounds_cx_s3.blockSize 4294967295)

/-- The next receive reads the corrupted header (65536), computes a block
count of 1025 and leaves `m_get_pos = 1023`, far beyond the capacity. -/
def bounds_cx_s5 : QState := dequeue bounds_cx_s4

/-- State holding exactly one queued (empty) message, on a fresh 8-block
queue of block size 64. -/
def single_message_state : QState :=
  put_message (initState 8 64) (fun _ => 0) 0
    (estimate_block_count (initState 8 64).blockSize 0)

/-!  Arithmetic lemmas about the `uint32_t` embedding. -/

theorem get_header_overhead_eq : get_header_overhead = 32 := rfl

theorem U32_pos : 0 < U32 := by decide

theorem mod32_eq_of_lt {a : Nat} (h : a < U32) : mod32 a = a :=
  Nat.mod_eq_of_lt h

theorem sub32_eq_sub {a b : Nat} (hba : b ≤ a) (ha : a < U32) :
    sub32 a b = a - b := by
  have hb : b < U32 := Nat.lt_of_le_of_lt hba ha
  simp only [sub32, U32] at *
  omega

theorem add32_eq_add {a b : Nat} (h : a + b < U32) : mod32 (a + b) = a + b :=
  mod32_eq_of_lt h

theorem init_block_size_log2_pow {k : Nat} (hk : k < 32) :
    init_block_size_log2 (2 ^ k) = k := by
  interval_cases k <;> decide

theorem two_pow_lt_U32 {k : Nat} (hk : k < 32) : 2 ^ k < U32 := by
  calc 2 ^ k < 2 ^ 32 := Nat.pow_lt_pow_right (by omega) hk
  _ ≤ U32 := by decide

theorem block_size_mask_pow {k : Nat} (hk : k < 32) :
    block_size_mask (2 ^ k) = 2 ^ k - 1 := by
  have h2 : 2 ^ k < U32 := two_pow_lt_U32 hk
  have h0 : 0 < 2 ^ k := Nat.pos_pow_of_pos k (by omega)
  simp only [block_size_mask, sub32, U32] at *
  omega

/-- In the regime where the `uint32_t` sum does not wrap, the source's
shift computation equals the ceiling division its comment documents. -/
theorem estimate_block_count_eq {k : Nat} (msize : Nat) (hk : k < 32)
    (hov : msize + get_header_overhead + (2 ^ k - 1) < U32) :
    estimate_block_count (2 ^ k) msize =
      ceil_div (msize + get_header_overhead) (2 ^ k) := by
  have h0 : 0 < 2 ^ k := Nat.pos_pow_of_pos k (by omega)
  simp only [estimate_block_count, ceil_div]
  rw [init_block_size_log2_pow hk, block_size_mask_pow hk,
    mod32_eq_of_lt hov, Nat.shiftRight_eq_div_pow]
  congr 1
  omega

theorem ceil_div_pos {a b : Nat} (ha : 0 < a) (hb : 0 < b) :
    0 < ceil_div a b := by
  simp only [ceil_div]
  show 1 ≤ (a + b - 1) / b
  rw [Nat.le_div_iff_mul_le hb]
  omega

theorem le_ceil_div_mul (a b : Nat) (hb : 0 < b) : a ≤ ceil_div a b * b := by
  simp only [ceil_div]
  have h := Nat.div_add_mod (a + b - 1) b
  have h2 := Nat.mod_lt (a + b - 1) hb
  obtain ⟨q, hq⟩ : ∃ q, (a + b - 1) / b = q := ⟨_, rfl⟩
  obtain ⟨r, hr⟩ : ∃ r, (a + b - 1) % b = r := ⟨_, rfl⟩
  rw [hq, hr] at h
  rw [hr] at h2
  rw [hq]
  obtain ⟨X, hX⟩ : ∃ X, b * q = X := ⟨_, rfl⟩
  rw [hX] at h
  rw [Nat.mul_comm, hX]
  omega

theorem ceil_div_le {a b c : Nat} (hb : 0 < b) (h : a ≤ c * b) :
    ceil_div a b ≤ c := by
  simp only [ceil_div]
  rw [Nat.div_le_iff_le_mul_add_pred hb, Nat.mul_comm b c]
  omega

/-- Cancellation of a common summand under a common modulus. -/
theorem add_mod_distinct {n g a b : Nat} (ha : a < n) (hb : b < n)
    (hab : a ≠ b) : (g + a) % n ≠ (g + b) % n := by
  intro h
  have h2 : g + a ≡ g + b [MOD n] := h
  have h3 : a ≡ b [MOD n] := Nat.ModEq.add_left_cancel' g h2
  have h4 : a % n = b % n := h3
  rw [Nat.mod_eq_of_lt ha, Nat.mod_eq_of_lt hb] at h4
  exact hab h4

theorem mod_add_eq (x a n : Nat) : (x % n + a) % n = (x + a) % n :=
  Nat.mod_add_mod x n a

theorem div_mul_add_lt {p t bs : Nat} (hbs : 0 < bs) (ht : t < bs) :
    (p * bs + t) / bs = p := by
  rw [Nat.add_comm, Nat.add_mul_div_right t p hbs, Nat.div_eq_of_lt ht]
  omega

/-!  Lemmas about the byte-memory primitives. -/

theorem memcpy_inside {mem src : Nat → Nat} {dst srcOff n a : Nat}
    (h1 : dst ≤ a) (h2 : a < dst + n) :
    memcpy mem dst src srcOff n a = src (srcOff + (a - dst)) % 256 := by
  simp only [memcpy]
  rw [if_pos ⟨h1, h2⟩]

theorem memcpy_outside {mem src : Nat → Nat} {dst srcOff n a : Nat}
    (h : a < dst ∨ dst + n ≤ a) :
    memcpy mem dst src srcOff n a = mem a := by
  simp only [memcpy]
  rw [if_neg (by omega)]

theorem writeLE32_outside {mem : Nat → Nat} {addr v a : Nat}
    (h : a < addr ∨ addr + 4 ≤ a) : writeLE32 mem addr v a = mem a := by
  simp only [writeLE32]
  rw [if_neg (by omega), if_neg (by omega), if_neg (by omega),
    if_neg (by omega)]

theorem readLE32_writeLE32 (mem : Nat → Nat) (addr v : Nat) :
    readLE32 (writeLE32 mem addr v) addr = mod32 v := by
  have e0 : writeLE32 mem addr v addr = v % 256 := by
    simp [writeLE32]
  have e1 : writeLE32 mem addr v (addr + 1) = v / 256 % 256 := by
    simp [writeLE32]
  have e2 : writeLE32 mem addr v (addr + 2) = v / 65536 % 256 := by
    simp [writeLE32]
  have e3 : writeLE32 mem addr v (addr + 3) = v / 16777216 % 256 := by
    simp [writeLE32]
  simp only [readLE32, e0, e1, e2, e3, mod32, U32]
  omega

theorem readLE32_congr {m1 m2 : Nat → Nat} (addr : Nat)
    (h : ∀ a, addr ≤ a → a < addr + 4 → m1 a = m2 a) :
    readLE32 m1 addr = readLE32 m2 addr := by
  have h0 : m1 addr = m2 addr := h addr (by omega) (by omega)
  have h1 : m1 (addr + 1) = m2 (addr + 1) := h _ (by omega) (by omega)
  have h2 : m1 (addr + 2) = m2 (addr + 2) := h _ (by omega) (by omega)
  have h3 : m1 (addr + 3) = m2 (addr + 3) := h _ (by omega) (by omega)
  simp only [readLE32, h0, h1, h2, h3]

theorem readBytes_congr {m1 m2 : Nat → Nat} {addr n : Nat}
    (h : ∀ a, addr ≤ a → a < addr + n → m1 a = m2 a) :
    readBytes m1 addr n = readBytes m2 addr n := by
  simp only [readBytes]
  refine List.map_congr_left ?_
  intro i hi
  rw [List.mem_range] at hi
  exact h (addr + i) (by omega) (by omega)

theorem readBytes_memcpy (mem src : Nat → Nat) (dst srcOff n : Nat) :
    readBytes (memcpy mem dst src srcOff n) dst n =
      (List.range n).map (fun i => src (srcOff + i) % 256) := by
  simp only [readBytes]
  refine List.map_congr_left ?_
  intro i hi
  rw [List.mem_range] at hi
  rw [memcpy_inside (by omega) (by omega), Nat.add_sub_cancel_left]

theorem readBytes_length (mem : Nat → Nat) (addr n : Nat) :
    (readBytes mem addr n).length = n := by
  simp [readBytes]

/-!  Claim theorems. -/

/-- C10: when `create` or `open_or_create` creates the segment with a
power-of-two requested block size, the queue is constructed with effective
block size `align_size(block_size, cache-line size)`; the `block_size()`
accessor returns this rounded value, which is strictly larger than the
request whenever the request is smaller than the cache line size. -/
theorem C10_create_block_size_rounding (cap bs : Nat)
    (h : is_power_of_2 bs = true) :
    reliable_message_queue.create cap bs =
      .ok (initState cap (align_size bs BOOST_LOG_CPU_CACHE_LINE_SIZE)) ∧
    reliable_message_queue.open_or_create cap bs =
      .ok (initState cap (align_size bs BOOST_LOG_CPU_CACHE_LINE_SIZE)) ∧
    reliable_message_queue.block_size
        (initState cap (align_size bs BOOST_LOG_CPU_CACHE_LINE_SIZE)) =
      align_size bs BOOST_LOG_CPU_CACHE_LINE_SIZE ∧
    (bs < BOOST_LOG_CPU_CACHE_LINE_SIZE →
      bs < reliable_message_queue.block_size
          (initState cap (align_size bs BOOST_LOG_CPU_CACHE_LINE_SIZE))) := by
  have hbs0 : bs ≠ 0 := by
    simp only [is_power_of_2, Bool.and_eq_true, bne_iff_ne, ne_eq] at h
    exact h.1
  refine ⟨?_, ?_, rfl, ?_⟩
  · simp [reliable_message_queue.create, h]
  · simp [reliable_message_queue.open_or_create, h]
  · intro hlt
    simp only [reliable_message_queue.block_size, initState, align_size,
      BOOST_LOG_CPU_CACHE_LINE_SIZE] at *
    have h1 : (bs + 64 - 1) / 64 = 1 := by omega
    rw [h1]
    omega

/-- C10 witness: requested block size 16 on a fresh queue of capacity 8 is
rounded up to the 64-byte cache line. -/
theorem C10_create_block_size_rounding_witness :
    is_power_of_2 16 = true ∧
    (reliable_message_queue.create 8 16 =
        .ok (initState 8 (align_size 16 BOOST_LOG_CPU_CACHE_LINE_SIZE)) ∧
      reliable_message_queue.open_or_create 8 16 =
        .ok (initState 8 (align_size 16 BOOST_LOG_CPU_CACHE_LINE_SIZE)) ∧
      reliable_message_queue.block_size
          (initState 8 (align_size 16 BOOST_LOG_CPU_CACHE_LINE_SIZE)) =
        align_size 16 BOOST_LOG_CPU_CACHE_LINE_SIZE ∧
      (16 < BOOST_LOG_CPU_CACHE_LINE_SIZE →
        16 < reliable_message_queue.block_size
            (initState 8 (align_size 16 BOOST_LOG_CPU_CACHE_LINE_SIZE)))) :=
  ⟨by decide, C10_create_block_size_rounding 8 16 (by decide)⟩

/-- C5: a payload whose computed block count exceeds the queue capacity is
rejected with the message-too-large logic error by both `send` and
`try_send`, for every value of the stop flag (the check precedes the stop
observation and the lock) and every policy, with no state produced —
including on an empty queue. -/
theorem C5_message_too_large (stop : Bool) (policy : overflow_policy)
    (s : QState) (data : Nat → Nat) (messageSize : Nat)
    (h : s.capacity < estimate_block_count s.blockSize messageSize) :
    send_step stop policy s data messageSize = .tooLarge ∧
    try_send stop s data messageSize = .tooLarge := by
  constructor
  · simp only [send_step]
    rw [if_pos h]
  · simp only [try_send]
    rw [if_pos h]

/-- C5 witness: a 256-byte payload needs 5 blocks and is rejected by the
empty 4-block queue even with the stop flag raised. -/
theorem C5_message_too_large_witness :
    (initState 4 64).capacity <
      estimate_block_count (initState 4 64).blockSize 256 ∧
    send_step true .block_on_overflow (initState 4 64) (fun _ => 0) 256 =
      .tooLarge ∧
    try_send true (initState 4 64) (fun _ => 0) 256 = .tooLarge := by
  have h : (initState 4 64).capacity <
      estimate_block_count (initState 4 64).blockSize 256 := by decide
  have h2 := C5_message_too_large true .block_on_overflow (initState 4 64)
    (fun _ => 0) 256 h
  exact ⟨h, h2.1, h2.2⟩

/-- C6: at `message_size = 2^32 - 1` (a valid `uint32_t`) with block size
64, the `uint32_t` sum in `estimate_block_count` wraps around and the code
allocates 1 block, while the ceiling formula documented in the source's
own comment (and claimed by the spec) gives 67108865 blocks; payloads of
size 0 do get the 1 block the claim states. -/
theorem C6_estimate_block_count_overflow :
    estimate_block_count 64 4294967295 = 1 ∧
    ceil_div (4294967295 + get_header_overhead) 64 = 67108865 ∧
    estimate_block_count 64 4294967295 ≠
      ceil_div (4294967295 + get_header_overhead) 64 ∧
    estimate_block_count 64 0 = 1 := by
  exact ⟨by decide, by decide, by decide, by decide⟩

/-- C4: when send holds the mutex, the facade is not stopped, the message
fits the queue but fewer than `blocks_needed` blocks are free, the Error
policy fails with capacity-limit-reached and the Block policy reaches the
`nonfull` wait (after which the loop re-evaluates); in neither case is the
message placed or dropped. -/
theorem C4_overflow_policy (policy : overflow_policy) (s : QState)
    (data : Nat → Nat) (messageSize : Nat)
    (hfits : estimate_block_count s.blockSize messageSize ≤ s.capacity)
    (hfull : sub32 s.capacity s.size <
      estimate_block_count s.blockSize messageSize) :
    send_step false policy s data messageSize =
      (if policy = .throw_on_overflow then .capacityError else .wouldBlock) := by
  simp only [send_step]
  rw [if_neg (by omega), if_neg (by simp), if_neg (by omega)]

/-- C4 witness: a full 2-block queue receiving a 1-block message under the
Block policy reaches the `nonfull` wait. -/
theorem C4_overflow_policy_witness :
    (estimate_block_count
        (QState.blockSize ⟨2, 64, 2, 0, 0, fun _ => 0⟩) 0 ≤
      QState.capacity ⟨2, 64, 2, 0, 0, fun _ => 0⟩) ∧
    (sub32 (QState.capacity ⟨2, 64, 2, 0, 0, fun _ => 0⟩)
        (QState.size ⟨2, 64, 2, 0, 0, fun _ => 0⟩) <
      estimate_block_count (QState.blockSize ⟨2, 64, 2, 0, 0, fun _ => 0⟩) 0) ∧
    send_step false .block_on_overflow ⟨2, 64, 2, 0, 0, fun _ => 0⟩
        (fun _ => 0) 0 =
      (if (overflow_policy.block_on_overflow = .throw_on_overflow) then
        .capacityError else .wouldBlock) :=
  ⟨by decide, by decide,
    C4_overflow_policy .block_on_overflow ⟨2, 64, 2, 0, 0, fun _ => 0⟩
      (fun _ => 0) 0 (by decide) (by decide)⟩

/-- C8: `stop()` leaves the shared state untouched, sets only the
facade-local flag and broadcasts both condition variables; `reset()`
clears the flag with no shared-state change; while the flag is set,
blocking `send`/`receive` return aborted; and the flag being per-facade,
another facade's receive on the same shared state is unaffected. -/
theorem C8_stop_reset_frame {σ E : Type} (f : Bool) (s : QState)
    (policy : overflow_policy) (data : Nat → Nat) (messageSize : Nat)
    (handler : σ → List Nat → Except E σ) (st : σ)
    (hf : f = false)
    (hfits : estimate_block_count s.blockSize messageSize ≤ s.capacity) :
    (stop_op f s).2.1 = s ∧
    (stop_op f s).1 = true ∧
    (stop_op f s).2.2 = [.nonemptyNotifyAll, .nonfullNotifyAll] ∧
    reset_op true s = (false, s) ∧
    send_step true policy s data messageSize = .aborted ∧
    receive_step true s handler st = (.ok (.aborted, st), s) ∧
    receive_step false (stop_op f s).2.1 handler st =
      receive_step false s handler st := by
  subst hf
  refine ⟨rfl, rfl, rfl, rfl, ?_, rfl, rfl⟩
  simp only [send_step]
  rw [if_neg (by omega)]
  simp

/-- C8 witness: concrete instantiation on a fresh 4-block queue. -/
theorem C8_stop_reset_frame_witness :
    ((false : Bool) = false ∧
      estimate_block_count (initState 4 64).blockSize 0 ≤
        (initState 4 64).capacity) ∧
    ((stop_op false (initState 4 64)).2.1 = initState 4 64 ∧
      (stop_op false (initState 4 64)).1 = true ∧
      (stop_op false (initState 4 64)).2.2 =
        [.nonemptyNotifyAll, .nonfullNotifyAll] ∧
      reset_op true (initState 4 64) = (false, initState 4 64) ∧
      send_step true .block_on_overflow (initState 4 64) (fun _ => 0) 0 =
        .aborted ∧
      receive_step true (initState 4 64)
          (fun (_ : Unit) (_ : List Nat) => (Except.ok () : Except Unit Unit)) () =
        (.ok (.aborted, ()), initState 4 64) ∧
      receive_step false (stop_op false (initState 4 64)).2.1
          (fun (_ : Unit) (_ : List Nat) => (Except.ok () : Except Unit Unit)) () =
        receive_step false (initState 4 64)
          (fun (_ : Unit) (_ : List Nat) => (Except.ok () : Except Unit Unit)) ()) :=
  ⟨⟨rfl, by decide⟩,
    C8_stop_reset_frame false (initState 4 64) .block_on_overflow
      (fun _ => 0) 0 (fun _ _ => Except.ok ()) () rfl (by decide)⟩

theorem adopt_poll_none (refObs : Nat → Nat) :
    ∀ fuel start, (∀ j, start ≤ j → j < start + fuel → refObs j = 0) →
      adopt_poll refObs start fuel = none := by
  intro fuel
  induction fuel with
  | zero => intro start _; rfl
  | succ n ih =>
    intro start h
    have h0 : refObs start = 0 := h start (Nat.le_refl _) (by omega)
    simp only [adopt_poll]
    rw [if_neg (by omega)]
    exact ih (start + 1) (fun j hj1 hj2 => h j (by omega) (by omega))

theorem adopt_poll_finds (refObs : Nat → Nat) (i0 : Nat) (hpos : 0 < refObs i0)
    (hzero : ∀ j, j < i0 → refObs j = 0) :
    ∀ fuel start, start ≤ i0 → i0 < start + fuel →
      adopt_poll refObs start fuel = some (i0, refObs i0) := by
  intro fuel
  induction fuel with
  | zero => intro start h1 h2; omega
  | succ n ih =>
    intro start h1 h2
    simp only [adopt_poll]
    by_cases hs : start = i0
    · subst hs
      rw [if_pos hpos]
    · have h0 : refObs start = 0 := hzero start (by omega)
      rw [if_neg (by omega)]
      exact ih (start + 1) (by omega) (by omega)

theorem adopt_backoffs_eq (refObs : Nat → Nat) (i0 : Nat)
    (hpos : 0 < refObs i0) (hzero : ∀ j, j < i0 → refObs j = 0) :
    ∀ fuel start, start ≤ i0 → i0 < start + fuel →
      adopt_backoffs refObs start fuel =
        (List.range' start (i0 - start)).map backoff_at := by
  intro fuel
  induction fuel with
  | zero => intro start h1 h2; omega
  | succ n ih =>
    intro start h1 h2
    simp only [adopt_backoffs]
    by_cases hs : start = i0
    · rw [hs, if_pos hpos]
      have h0 : i0 - i0 = 0 := by omega
      rw [h0]
      rfl
    · have h0 : refObs start = 0 := hzero start (by omega)
      rw [if_neg (by omega)]
      have hn : i0 - start = (i0 - (start + 1)) + 1 := by omega
      rw [hn, List.range'_succ, List.map_cons,
        ih (start + 1) (by omega) (by omega)]

/-- C7: attaching polls `m_ref_count` for at most 200 rounds, backing off
with a 16-iteration pause loop in the first 16 rounds and a yield or 1 µs
sleep afterwards; exhausting the rounds fails with a setup error; a
positive observed value is CAS-incremented, after which an ABI-tag
mismatch or a non-power-of-two stored block size makes the attacher detach
(decrementing the count, removing the segment only if it held the last
reference — never the case after incrementing a positive count) and fail
with a setup error. -/
theorem C7_attach_protocol (localAbiTag : Nat) (hdr : SegHeader)
    (refObs : Nat → Nat) :
    ((∀ i, i < wait_loops → refObs i = 0) →
      adopt_region localAbiTag hdr refObs = .timeout) ∧
    (∀ i, backoff_at i = if i < 16 then .pause 16 else .yieldOrSleep) ∧
    (∀ i0, i0 < wait_loops → 0 < refObs i0 → (∀ j, j < i0 → refObs j = 0) →
      refObs i0 < U32 →
      adopt_poll refObs 0 wait_loops = some (i0, refObs i0) ∧
      adopt_backoffs refObs 0 wait_loops = (List.range i0).map backoff_at ∧
      (hdr.abiTag = localAbiTag → is_power_of_2 hdr.blockSize = true →
        adopt_region localAbiTag hdr refObs = .attached (refObs i0 + 1)) ∧
      (hdr.abiTag ≠ localAbiTag →
        adopt_region localAbiTag hdr refObs = .abiMismatch (refObs i0) false) ∧
      (hdr.abiTag = localAbiTag → is_power_of_2 hdr.blockSize = false →
        adopt_region localAbiTag hdr refObs = .badBlockSize (refObs i0) false)) := by
  refine ⟨?_, fun i => rfl, ?_⟩
  · intro h
    simp only [adopt_region]
    rw [adopt_poll_none refObs wait_loops 0 (fun j hj1 hj2 => h j (by omega))]
  · intro i0 hi0 hpos hzero hv
    have hpoll : adopt_poll refObs 0 wait_loops = some (i0, refObs i0) :=
      adopt_poll_finds refObs i0 hpos hzero wait_loops 0 (by omega) (by omega)
    have hsub : sub32 (refObs i0 + 1) 1 = refObs i0 := by
      simp only [sub32, U32] at *
      omega
    have hbeq : (refObs i0 + 1 == 1) = false := by
      rw [beq_eq_false_iff_ne]
      omega
    refine ⟨hpoll, ?_, ?_, ?_, ?_⟩
    · rw [adopt_backoffs_eq refObs i0 hpos hzero wait_loops 0 (by omega)
        (by omega), List.range_eq_range', Nat.sub_zero]
    · intro habi hp2
      simp only [adopt_region]
      rw [hpoll]
      simp [habi, hp2]
    · intro habi
      simp only [adopt_region]
      rw [hpoll]
      simp [close_region, hsub, hbeq, habi]
    · intro habi hp2
      simp only [adopt_region]
      rw [hpoll]
      simp [close_region, hsub, hbeq, habi, hp2]

/-- C7 witness: a creator that never publishes times out; a count first
observed positive (value 5, round 3) is adopted, and each validation
failure detaches without removing the segment. -/
theorem C7_attach_protocol_witness :
    (adopt_region 7 ⟨7, 4, 64⟩ (fun _ => 0) = .timeout) ∧
    (adopt_poll (fun i => if i < 3 then 0 else 5) 0 wait_loops =
      some (3, (fun i => if i < 3 then 0 else 5) 3)) ∧
    (adopt_region 7 ⟨7, 4, 64⟩ (fun i => if i < 3 then 0 else 5) =
      .attached ((fun i => if i < 3 then 0 else 5) 3 + 1)) ∧
    (adopt_region 8 ⟨7, 4, 64⟩ (fun i => if i < 3 then 0 else 5) =
      .abiMismatch ((fun i => if i < 3 then 0 else 5) 3) false) ∧
    (adopt_region 7 ⟨7, 4, 63⟩ (fun i => if i < 3 then 0 else 5) =
      .badBlockSize ((fun i => if i < 3 then 0 else 5) 3) false) := by
  have h1 := (C7_attach_protocol 7 ⟨7, 4, 64⟩ (fun _ => 0)).1
    (fun i _ => rfl)
  have h2 := (C7_attach_protocol 7 ⟨7, 4, 64⟩
    (fun i => if i < 3 then 0 else 5)).2.2 3 (by decide) (by decide)
    (by decide) (by decide)
  have h3 := (C7_attach_protocol 8 ⟨7, 4, 64⟩
    (fun i => if i < 3 then 0 else 5)).2.2 3 (by decide) (by decide)
    (by decide) (by decide)
  have h4 := (C7_attach_protocol 7 ⟨7, 4, 63⟩
    (fun i => if i < 3 then 0 else 5)).2.2 3 (by decide) (by decide)
    (by decide) (by decide)
  exact ⟨h1, h2.1, h2.2.2.1 rfl (by decide), h3.2.2.2.1 (by decide),
    h4.2.2.2.2 rfl (by decide)⟩

theorem run_handler_fixed_ok (cs : List (List Nat)) :
    ∀ (w : List Nat) (n : Nat), cs.flatten.length ≤ n →
      run_handler fixed_buffer_receive_handler { written := w, size := n } cs =
        .ok { written := w ++ cs.flatten,
              size := n - cs.flatten.length } := by
  induction cs with
  | nil =>
    intro w n _
    simp [run_handler]
  | cons c rest ih =>
    intro w n h
    rw [List.flatten_cons, List.length_append] at h
    simp only [run_handler, fixed_buffer_receive_handler]
    rw [if_neg (by omega)]
    show run_handler fixed_buffer_receive_handler
        { written := w ++ c, size := n - c.length } rest = _
    rw [ih (w ++ c) (n - c.length) (by omega)]
    simp only [List.flatten_cons, List.append_assoc, Except.ok.injEq,
      fixed_buffer_state.mk.injEq, List.length_append]
    exact ⟨trivial, by omega⟩

theorem headChunks_exists_cons (s : QState) :
    ∃ c rest, headChunks s = c :: rest ∧ (headChunks s).headD [] = c := by
  simp only [headChunks]
  split
  · exact ⟨_, _, rfl, List.headD_cons⟩
  · exact ⟨_, _, rfl, List.headD_cons⟩

theorem get_message_buffer_too_small (s : QState) (n : Nat)
    (h : n < ((headChunks s).headD []).length) :
    get_message s fixed_buffer_receive_handler { written := [], size := n } =
      .error () := by
  obtain ⟨c, rest, hc, hhead⟩ := headChunks_exists_cons s
  rw [hhead] at h
  simp only [get_message, hc, run_handler, fixed_buffer_receive_handler]
  rw [if_pos h]

/-- C2: a receive handler failing before the payload is consumed (notably
the fixed-buffer helper failing buffer-too-small on the first chunk) makes
the failure propagate out of `receive`/`try_receive` with `m_get_pos` and
`m_size` unchanged, so a subsequent `try_receive` on the same state with
an adequate buffer dequeues that same message. -/
theorem C2_receive_handler_failure {σ E : Type} (s : QState)
    (hsz : 0 < s.size) :
    (∀ (handler : σ → List Nat → Except E σ) (st : σ) (e : E),
      get_message s handler st = .error e →
      try_receive false s handler st = (.error e, s) ∧
      receive_step false s handler st = (.error e, s)) ∧
    (∀ n, n < ((headChunks s).headD []).length →
      get_message s fixed_buffer_receive_handler
          { written := [], size := n } = .error ()) ∧
    (∀ n, (headChunks s).flatten.length ≤ n →
      try_receive false s fixed_buffer_receive_handler
          { written := [], size := n } =
        (.ok (true, { written := (headChunks s).flatten,
                      size := n - (headChunks s).flatten.length }),
          dequeue s)) := by
  refine ⟨?_, fun n h => get_message_buffer_too_small s n h, ?_⟩
  · intro handler st e hfail
    constructor
    · simp only [try_receive]
      rw [if_neg (by simp), if_neg (by omega), hfail]
    · simp only [receive_step]
      rw [if_neg (by simp), if_neg (by omega), hfail]
  · intro n h
    simp only [try_receive]
    rw [if_neg (by simp), if_neg (by omega)]
    simp only [get_message]
    rw [run_handler_fixed_ok (headChunks s) [] n h]
    show (Except.ok (true,
        ({ written := [] ++ (headChunks s).flatten,
           size := n - (headChunks s).flatten.length } : fixed_buffer_state)),
      dequeue s) = _
    rw [List.nil_append]

/-- C2 witness: a queued 5-byte message makes a 2-byte fixed buffer fail
with the state intact, after which a 16-byte buffer receives it. -/
theorem C2_receive_handler_failure_witness :
    0 < (put_message (initState 8 64) (fun i => 100 + i) 5
        (estimate_block_count 64 5)).size ∧
    get_message (put_message (initState 8 64) (fun i => 100 + i) 5
          (estimate_block_count 64 5)) fixed_buffer_receive_handler
        { written := [], size := 2 } = .error () ∧
    try_receive false (put_message (initState 8 64) (fun i => 100 + i) 5
          (estimate_block_count 64 5)) fixed_buffer_receive_handler
        { written := [], size := 2 } =
      (.error (), put_message (initState 8 64) (fun i => 100 + i) 5
        (estimate_block_count 64 5)) ∧
    try_receive false (put_message (initState 8 64) (fun i => 100 + i) 5
          (estimate_block_count 64 5)) fixed_buffer_receive_handler
        { written := [], size := 16 } =
      (.ok (true,
          { written := (headChunks (put_message (initState 8 64)
              (fun i => 100 + i) 5 (estimate_block_count 64 5))).flatten,
            size := 16 - (headChunks (put_message (initState 8 64)
              (fun i => 100 + i) 5 (estimate_block_count 64 5))).flatten.length }),
        dequeue (put_message (initState 8 64) (fun i => 100 + i) 5
          (estimate_block_count 64 5))) := by
  have hsz : 0 < (put_message (initState 8 64) (fun i => 100 + i) 5
      (estimate_block_count 64 5)).size := by decide
  have h := C2_receive_handler_failure (σ := fixed_buffer_state) (E := Unit)
    (put_message (initState 8 64) (fun i => 100 + i) 5
      (estimate_block_count 64 5)) hsz
  have hfail := h.2.1 2 (by decide)
  exact ⟨hsz, hfail, (h.1 fixed_buffer_receive_handler
    { written := [], size := 2 } () hfail).1, h.2.2 16 (by decide)⟩

theorem run_handler_collector (cs : List (List Nat)) :
    ∀ acc, run_handler
        (fun acc c => (.ok (acc ++ [c]) : Except Unit (List (List Nat))))
        acc cs = .ok (acc ++ cs) := by
  induction cs with
  | nil =>
    intro acc
    simp [run_handler]
  | cons c rest ih =>
    intro acc
    simp only [run_handler]
    rw [ih (acc ++ [c]), List.append_assoc, List.singleton_append]

/-- Receiving with the chunk-collecting handler returns exactly the head
message's chunks and commits the dequeue. -/
theorem get_message_collector (s : QState) :
    get_message s
        (fun acc c => (.ok (acc ++ [c]) : Except Unit (List (List Nat)))) [] =
      .ok (headChunks s, dequeue s) := by
  simp only [get_message]
  rw [run_handler_collector (headChunks s) [], List.nil_append]

theorem map_range_take (f : Nat → Nat) {n w : Nat} (hw : w ≤ n) :
    (List.range w).map f = ((List.range n).map f).take w := by
  rw [← List.map_take, List.take_range, Nat.min_eq_left hw]

theorem map_range_drop (f : Nat → Nat) {n w : Nat} (hw : w ≤ n) :
    (List.range (n - w)).map (fun i => f (w + i)) =
      ((List.range n).map f).drop w := by
  apply List.ext_getElem
  · simp [hw]
  · intro i h1 h2
    simp only [List.getElem_map, List.getElem_range, List.getElem_drop]

theorem put_message_capacity (s : QState) (data : Nat → Nat) (msize bc : Nat) :
    (put_message s data msize bc).capacity = s.capacity := by
  simp only [put_message]
  split <;> rfl

theorem put_message_blockSize (s : QState) (data : Nat → Nat) (msize bc : Nat) :
    (put_message s data msize bc).blockSize = s.blockSize := by
  simp only [put_message]
  split <;> rfl

theorem put_message_getPos (s : QState) (data : Nat → Nat) (msize bc : Nat) :
    (put_message s data msize bc).getPos = s.getPos := by
  simp only [put_message]
  split <;> rfl

theorem put_message_size (s : QState) (data : Nat → Nat) (msize bc : Nat) :
    (put_message s data msize bc).size = mod32 (s.size + bc) := by
  simp only [put_message]
  split <;> rfl

theorem put_message_putPos (s : QState) (data : Nat → Nat) (msize bc : Nat) :
    (put_message s data msize bc).putPos =
      (if s.capacity ≤ mod32 (s.putPos + bc) then
        mod32 (s.putPos + bc) - s.capacity
      else mod32 (s.putPos + bc)) := by
  simp only [put_message]
  by_cases h : s.capacity ≤ mod32 (s.putPos + bc)
  · rw [if_pos h, if_pos h]
  · rw [if_neg h, if_neg h]

theorem put_message_mem (s : QState) (data : Nat → Nat) (msize bc : Nat) :
    (put_message s data msize bc).mem =
      (if s.capacity ≤ mod32 (s.putPos + bc) ∧
          0 < msize - min (availBytes s s.putPos) msize then
        memcpy (memcpy (writeLE32 s.mem (s.putPos * s.blockSize) msize)
            (s.putPos * s.blockSize + get_header_overhead) data 0
            (min (availBytes s s.putPos) msize))
          0 data (min (availBytes s s.putPos) msize)
          (msize - min (availBytes s s.putPos) msize)
      else
        memcpy (writeLE32 s.mem (s.putPos * s.blockSize) msize)
          (s.putPos * s.blockSize + get_header_overhead) data 0
          (min (availBytes s s.putPos) msize)) := by
  simp only [put_message]
  by_cases h1 : s.capacity ≤ mod32 (s.putPos + bc)
  · rw [if_pos h1]
    by_cases h2 : 0 < msize - min (availBytes s s.putPos) msize
    · rw [if_pos h2, if_pos ⟨h1, h2⟩]
    · rw [if_neg h2, if_neg (by tauto)]
  · rw [if_neg h1, if_neg (by tauto)]

theorem dequeue_capacity (s : QState) : (dequeue s).capacity = s.capacity := by
  simp only [dequeue]
  split <;> rfl

theorem dequeue_blockSize (s : QState) : (dequeue s).blockSize = s.blockSize := by
  simp only [dequeue]
  split <;> rfl

theorem dequeue_putPos (s : QState) : (dequeue s).putPos = s.putPos := by
  simp only [dequeue]
  split <;> rfl

theorem dequeue_mem (s : QState) : (dequeue s).mem = s.mem := by
  simp only [dequeue]
  split <;> rfl

theorem dequeue_size (s : QState) :
    (dequeue s).size = sub32 s.size
      (estimate_block_count s.blockSize
        (readLE32 s.mem (s.getPos * s.blockSize))) := by
  simp only [dequeue]
  split <;> rfl

theorem dequeue_getPos (s : QState) :
    (dequeue s).getPos =
      (if s.capacity ≤ mod32 (s.getPos +
          estimate_block_count s.blockSize
            (readLE32 s.mem (s.getPos * s.blockSize))) then
        mod32 (s.getPos + estimate_block_count s.blockSize
          (readLE32 s.mem (s.getPos * s.blockSize))) - s.capacity
      else
        mod32 (s.getPos + estimate_block_count s.blockSize
          (readLE32 s.mem (s.getPos * s.blockSize)))) := by
  simp only [dequeue]
  by_cases h : s.capacity ≤ mod32 (s.getPos +
      estimate_block_count s.blockSize (readLE32 s.mem (s.getPos * s.blockSize)))
  · rw [if_pos h, if_pos h]
  · rw [if_neg h, if_neg h]

theorem headChunks_eq_of (s1 : QState) (msize bc rs : Nat)
    (hrd : readLE32 s1.mem (s1.getPos * s1.blockSize) = msize)
    (hbc : estimate_block_count s1.blockSize msize = bc)
    (hmod : mod32 (s1.getPos + bc) = s1.getPos + bc)
    (hrs : min (availBytes s1 s1.getPos) msize = rs) :
    headChunks s1 =
      (if s1.capacity ≤ s1.getPos + bc ∧ 0 < msize - rs then
        [readBytes s1.mem (s1.getPos * s1.blockSize + get_header_overhead) rs,
         readBytes s1.mem 0 (msize - rs)]
      else
        [readBytes s1.mem (s1.getPos * s1.blockSize + get_header_overhead) rs]) := by
  simp only [headChunks, hrd, hbc, hmod, hrs]

/-- Pure arithmetic facts about the write-size split of a message that
fits the free space of the ring. -/
theorem put_arith {cap bs pos msize bc A ws : Nat}
    (hbs33 : 33 ≤ bs) (hpos : pos < cap) (hbc_cap : bc ≤ cap)
    (hms_le : msize + 32 ≤ bc * bs)
    (hAdef : (cap - pos) * bs - 32 = A)
    (hwsdef : min A msize = ws) :
    ws ≤ msize ∧
    (¬ cap ≤ pos + bc → ws = msize) ∧
    (ws < msize → cap ≤ pos + bc ∧ ws = A ∧ msize - ws ≤ pos * bs) := by
  have hbs0 : 0 < bs := by omega
  have h2 : bc * bs ≤ cap * bs := Nat.mul_le_mul_right _ hbc_cap
  have hsplit : (cap - pos) * bs + pos * bs = cap * bs := by
    rw [← Nat.add_mul]
    congr 1
    omega
  have hbs_avail : 1 * bs ≤ (cap - pos) * bs :=
    Nat.mul_le_mul_right _ (by omega)
  refine ⟨?_, ?_, ?_⟩
  · rw [← hwsdef]
    exact Nat.min_le_right _ _
  · intro hnw
    have h1 : (bc + 1) * bs ≤ (cap - pos) * bs :=
      Nat.mul_le_mul_right _ (by omega)
    rw [Nat.add_mul, Nat.one_mul] at h1
    rw [← hwsdef]
    exact Nat.min_eq_right (by omega)
  · intro htl
    have hwrap : cap ≤ pos + bc := by
      by_contra hnw
      have h1 : (bc + 1) * bs ≤ (cap - pos) * bs :=
        Nat.mul_le_mul_right _ (by omega)
      rw [Nat.add_mul, Nat.one_mul] at h1
      have h3 : ws = msize := by
        rw [← hwsdef]
        exact Nat.min_eq_right (by omega)
      omega
    have hA2 : A ≤ msize := by
      rcases Nat.le_total A msize with h | h
      · exact h
      · rw [← hwsdef, Nat.min_eq_right h] at htl
        omega
    have hwsA : ws = A := by
      rw [← hwsdef]
      exact Nat.min_eq_left hA2
    refine ⟨hwrap, hwsA, ?_⟩
    rw [hwsA, ← hAdef]
    omega

/-- Characterization of the message as stored by `put_message` and then
read back by `get_message` when the message is at the head of the queue
(`m_get_pos = m_put_pos`): the block header holds the payload length and
the chunks reproduce the payload, wrapping exactly when it does not fit
before the end of the block array. -/
theorem put_headChunks (s : QState) (data : Nat → Nat) (msize k : Nat)
    (hk32 : k < 32) (hbs : s.blockSize = 2 ^ k)
    (hoh : get_header_overhead < s.blockSize)
    (hcapbs : s.capacity * s.blockSize < U32)
    (hpos : s.putPos < s.capacity)
    (hget : s.getPos = s.putPos)
    (hsz : s.size ≤ s.capacity)
    (hov : msize + get_header_overhead + (s.blockSize - 1) < U32)
    (hfree : estimate_block_count s.blockSize msize ≤ s.capacity - s.size)
    (hbytes : ∀ i, data i < 256) :
    readLE32 (put_message s data msize
        (estimate_block_count s.blockSize msize)).mem
      (s.putPos * s.blockSize) = msize ∧
    headChunks (put_message s data msize
        (estimate_block_count s.blockSize msize)) =
      (if min ((s.capacity - s.putPos) * s.blockSize - get_header_overhead)
            msize < msize then
        [((List.range msize).map data).take
            (min ((s.capacity - s.putPos) * s.blockSize - get_header_overhead)
              msize),
         ((List.range msize).map data).drop
            (min ((s.capacity - s.putPos) * s.blockSize - get_header_overhead)
              msize)]
      else [(List.range msize).map data]) ∧
    (min ((s.capacity - s.putPos) * s.blockSize - get_header_overhead) msize <
        msize →
      s.capacity ≤ s.putPos + estimate_block_count s.blockSize msize) := by
  have hOH := get_header_overhead_eq
  have hbs0 : 0 < s.blockSize := by omega
  have hbs33 : 33 ≤ s.blockSize := by omega
  have hcap0 : 0 < s.capacity := by omega
  have hcap1 : s.capacity ≤ s.capacity * s.blockSize :=
    Nat.le_mul_of_pos_right _ hbs0
  have hcapU : s.capacity < U32 := by omega
  have hcap33 : s.capacity * 33 ≤ s.capacity * s.blockSize :=
    Nat.mul_le_mul_left _ hbs33
  obtain ⟨bc, hbcdef⟩ : ∃ x, estimate_block_count s.blockSize msize = x :=
    ⟨_, rfl⟩
  rw [hbcdef] at hfree ⊢
  have hov2 : msize + get_header_overhead + (2 ^ k - 1) < U32 := by
    rw [← hbs]
    exact hov
  have hbceq : bc = ceil_div (msize + get_header_overhead) s.blockSize := by
    rw [← hbcdef, hbs]
    exact estimate_block_count_eq msize hk32 hov2
  have hbc_pos : 0 < bc := by
    rw [hbceq]
    exact ceil_div_pos (by omega) hbs0
  have hms_le : msize + get_header_overhead ≤ bc * s.blockSize := by
    rw [hbceq]
    exact le_ceil_div_mul _ _ hbs0
  have hbc_cap : bc ≤ s.capacity := by omega
  have hposbc : s.putPos + bc < U32 := by omega
  have hmod : mod32 (s.putPos + bc) = s.putPos + bc := mod32_eq_of_lt hposbc
  have havail_le : (s.capacity - s.putPos) * s.blockSize ≤
      s.capacity * s.blockSize := Nat.mul_le_mul_right _ (by omega)
  have hbs_avail : 1 * s.blockSize ≤ (s.capacity - s.putPos) * s.blockSize :=
    Nat.mul_le_mul_right _ (by omega)
  have havail : availBytes s s.putPos =
      (s.capacity - s.putPos) * s.blockSize - get_header_overhead := by
    simp only [availBytes]
    rw [mod32_eq_of_lt (by omega), sub32_eq_sub (by omega) (by omega)]
  rw [hOH] at havail
  obtain ⟨A, hAdef⟩ : ∃ x,
      (s.capacity - s.putPos) * s.blockSize - 32 = x := ⟨_, rfl⟩
  rw [hOH, hAdef]
  rw [hAdef] at havail
  obtain ⟨ws, hwsdef⟩ : ∃ x, min A msize = x := ⟨_, rfl⟩
  rw [hwsdef]
  have hms32 : msize + 32 ≤ bc * s.blockSize := by
    rw [hOH] at hms_le
    exact hms_le
  obtain ⟨hws_le, hnwcase, htlcase⟩ :=
    put_arith hbs33 hpos hbc_cap hms32 hAdef hwsdef
  have hbcbs_le : bc * s.blockSize ≤ s.capacity * s.blockSize :=
    Nat.mul_le_mul_right _ hbc_cap
  have hmem := put_message_mem s data msize bc
  rw [havail, hwsdef, hmod] at hmem
  obtain ⟨mem2, hmem2def⟩ : ∃ x,
      memcpy (writeLE32 s.mem (s.putPos * s.blockSize) msize)
        (s.putPos * s.blockSize + get_header_overhead) data 0 ws = x :=
    ⟨_, rfl⟩
  rw [hmem2def] at hmem
  have hrd2 : readLE32 mem2 (s.putPos * s.blockSize) = msize := by
    rw [← hmem2def]
    have h1 : readLE32 (memcpy (writeLE32 s.mem (s.putPos * s.blockSize) msize)
        (s.putPos * s.blockSize + get_header_overhead) data 0 ws)
        (s.putPos * s.blockSize) =
        readLE32 (writeLE32 s.mem (s.putPos * s.blockSize) msize)
          (s.putPos * s.blockSize) :=
      readLE32_congr _ (fun a ha1 ha2 =>
        memcpy_outside (Or.inl (by clear * - ha1 ha2 hOH; omega)))
    rw [h1, readLE32_writeLE32, mod32_eq_of_lt (by clear * - hov; omega)]
  have hchunk1 : readBytes mem2
      (s.putPos * s.blockSize + get_header_overhead) ws =
      ((List.range msize).map data).take ws := by
    rw [← hmem2def, readBytes_memcpy, ← map_range_take data hws_le]
    apply List.map_congr_left
    intro i _
    rw [Nat.zero_add, Nat.mod_eq_of_lt (hbytes i)]
  have e1 : (put_message s data msize bc).getPos *
      (put_message s data msize bc).blockSize = s.putPos * s.blockSize := by
    rw [put_message_getPos, put_message_blockSize, hget]
  have hbc2 : estimate_block_count (put_message s data msize bc).blockSize
      msize = bc := by
    rw [put_message_blockSize, hbcdef]
  have hmod2 : mod32 ((put_message s data msize bc).getPos + bc) =
      (put_message s data msize bc).getPos + bc := by
    rw [put_message_getPos, hget]
    exact hmod
  have hrs : min (availBytes (put_message s data msize bc)
      (put_message s data msize bc).getPos) msize = ws := by
    have e2 : availBytes (put_message s data msize bc)
        (put_message s data msize bc).getPos = availBytes s s.putPos := by
      simp only [availBytes, put_message_capacity, put_message_blockSize,
        put_message_getPos, hget]
    rw [e2, havail, hwsdef]
  by_cases htail : ws < msize
  · obtain ⟨hwrap, hwsA, htailb⟩ := htlcase htail
    have hmem2 : (put_message s data msize bc).mem =
        memcpy mem2 0 data ws (msize - ws) := by
      rw [hmem, if_pos ⟨hwrap, Nat.sub_pos_of_lt htail⟩]
    have hrdA : readLE32 (put_message s data msize bc).mem
        (s.putPos * s.blockSize) = msize := by
      rw [hmem2, readLE32_congr (s.putPos * s.blockSize)
        (fun a ha1 ha2 =>
          memcpy_outside (Or.inr (by clear * - ha1 htailb; omega)))]
      exact hrd2
    have hchunk1h : readBytes (memcpy mem2 0 data ws (msize - ws))
        (s.putPos * s.blockSize + get_header_overhead) ws =
        ((List.range msize).map data).take ws := by
      rw [readBytes_congr (fun a ha1 ha2 =>
        memcpy_outside (Or.inr (by clear * - ha1 htailb; omega)))]
      exact hchunk1
    have hchunk2 : readBytes (memcpy mem2 0 data ws (msize - ws)) 0
        (msize - ws) = ((List.range msize).map data).drop ws := by
      rw [readBytes_memcpy, ← map_range_drop data hws_le]
      apply List.map_congr_left
      intro i _
      rw [Nat.mod_eq_of_lt (hbytes _)]
    have hcond1 : (put_message s data msize bc).capacity ≤
        (put_message s data msize bc).getPos + bc := by
      rw [put_message_capacity, put_message_getPos, hget]
      exact hwrap
    refine ⟨hrdA, ?_, fun _ => hwrap⟩
    rw [headChunks_eq_of (put_message s data msize bc) msize bc ws
      (by rw [e1]; exact hrdA) hbc2 hmod2 hrs]
    rw [if_pos ⟨hcond1, Nat.sub_pos_of_lt htail⟩]
    rw [e1, hmem2, hchunk1h, hchunk2, if_pos htail]
  · have hws_eq : ws = msize :=
      Nat.le_antisymm hws_le (Nat.le_of_not_lt htail)
    have hmem2 : (put_message s data msize bc).mem = mem2 := by
      rw [hmem, if_neg (by
        intro hcontra
        clear * - hcontra hws_eq
        omega)]
    have hrdA : readLE32 (put_message s data msize bc).mem
        (s.putPos * s.blockSize) = msize := by
      rw [hmem2]
      exact hrd2
    refine ⟨hrdA, ?_, fun h => absurd h htail⟩
    rw [headChunks_eq_of (put_message s data msize bc) msize bc ws
      (by rw [e1]; exact hrdA) hbc2 hmod2 hrs]
    rw [if_neg (by
      intro hcontra
      clear * - hcontra hws_eq
      omega)]
    rw [e1, hmem2]
    rw [hws_eq] at hchunk1
    rw [hws_eq, hchunk1, if_neg (Nat.lt_irrefl msize)]
    rw [List.take_of_length_le (by simp)]

/-- C1 (amended to message sizes that avoid the `uint32_t` wraparound in
`estimate_block_count`, i.e. `msize + overhead + (block_size-1) < 2^32`):
after a successful `send`'s `put_message`, the receive that dequeues that
message invokes the handler once with the pre-wrap chunk and — only when
the message wraps past block `capacity-1` — a second time with the
remaining bytes; the concatenation of the delivered chunks is exactly the
payload, and its total length is the size stored in the message's
`BlockHeader` by `send`. -/
theorem C1_send_receive_roundtrip (s : QState) (data : Nat → Nat)
    (msize k : Nat)
    (hk32 : k < 32) (hbs : s.blockSize = 2 ^ k)
    (hoh : get_header_overhead < s.blockSize)
    (hcapbs : s.capacity * s.blockSize < U32)
    (hpos : s.putPos < s.capacity)
    (hget : s.getPos = s.putPos)
    (hsz : s.size ≤ s.capacity)
    (hov : msize + get_header_overhead + (s.blockSize - 1) < U32)
    (hfree : estimate_block_count s.blockSize msize ≤
      sub32 s.capacity s.size)
    (hbytes : ∀ i, data i < 256) :
    get_message (put_message s data msize
        (estimate_block_count s.blockSize msize))
        (fun acc c => (.ok (acc ++ [c]) : Except Unit (List (List Nat))))
        [] =
      .ok (headChunks (put_message s data msize
          (estimate_block_count s.blockSize msize)),
        dequeue (put_message s data msize
          (estimate_block_count s.blockSize msize))) ∧
    (headChunks (put_message s data msize
        (estimate_block_count s.blockSize msize))).flatten =
      (List.range msize).map data ∧
    readLE32 (put_message s data msize
        (estimate_block_count s.blockSize msize)).mem
      (s.putPos * s.blockSize) = msize ∧
    (headChunks (put_message s data msize
        (estimate_block_count s.blockSize msize))).flatten.length = msize ∧
    headChunks (put_message s data msize
        (estimate_block_count s.blockSize msize)) =
      (if min ((s.capacity - s.putPos) * s.blockSize - get_header_overhead)
            msize < msize then
        [((List.range msize).map data).take
            (min ((s.capacity - s.putPos) * s.blockSize - get_header_overhead)
              msize),
         ((List.range msize).map data).drop
            (min ((s.capacity - s.putPos) * s.blockSize - get_header_overhead)
              msize)]
      else [(List.range msize).map data]) ∧
    ((headChunks (put_message s data msize
        (estimate_block_count s.blockSize msize))).length = 2 →
      s.capacity ≤ s.putPos + estimate_block_count s.blockSize msize) := by
  have hbs0 : 0 < s.blockSize := by omega
  have hcapU : s.capacity < U32 := by
    have h1 : s.capacity ≤ s.capacity * s.blockSize :=
      Nat.le_mul_of_pos_right _ hbs0
    omega
  rw [sub32_eq_sub hsz hcapU] at hfree
  obtain ⟨hhdr, hchunks, hwrapimp⟩ := put_headChunks s data msize k hk32 hbs
    hoh hcapbs hpos hget hsz hov hfree hbytes
  have hflat : (headChunks (put_message s data msize
      (estimate_block_count s.blockSize msize))).flatten =
      (List.range msize).map data := by
    rw [hchunks]
    by_cases h : min ((s.capacity - s.putPos) * s.blockSize -
        get_header_overhead) msize < msize
    · rw [if_pos h]
      simp only [List.flatten_cons, List.flatten_nil, List.append_nil]
      exact List.take_append_drop _ _
    · rw [if_neg h]
      simp
  refine ⟨get_message_collector _, hflat, hhdr, ?_, hchunks, ?_⟩
  · rw [hflat]
    simp
  · intro hlen2
    by_cases h : min ((s.capacity - s.putPos) * s.blockSize -
        get_header_overhead) msize < msize
    · exact hwrapimp h
    · rw [hchunks, if_neg h] at hlen2
      simp at hlen2

/-- C1 witness: 5-byte payload on a fresh 8-block queue of block size 64;
the single delivered chunk is the payload. -/
theorem C1_send_receive_roundtrip_witness :
    ((6 : Nat) < 32 ∧ (initState 8 64).blockSize = 2 ^ 6 ∧
      get_header_overhead < (initState 8 64).blockSize ∧
      (initState 8 64).capacity * (initState 8 64).blockSize < U32 ∧
      (initState 8 64).putPos < (initState 8 64).capacity ∧
      (initState 8 64).getPos = (initState 8 64).putPos ∧
      (initState 8 64).size ≤ (initState 8 64).capacity ∧
      5 + get_header_overhead + ((initState 8 64).blockSize - 1) < U32 ∧
      estimate_block_count (initState 8 64).blockSize 5 ≤
        sub32 (initState 8 64).capacity (initState 8 64).size) ∧
    (headChunks (put_message (initState 8 64) (fun _ => 7) 5
        (estimate_block_count (initState 8 64).blockSize 5))).flatten =
      (List.range 5).map (fun _ => 7) ∧
    readLE32 (put_message (initState 8 64) (fun _ => 7) 5
        (estimate_block_count (initState 8 64).blockSize 5)).mem
      ((initState 8 64).putPos * (initState 8 64).blockSize) = 5 :=
  ⟨⟨by decide, by decide, by decide, by decide, by decide, by decide,
    by decide, by decide, by decide⟩,
    (C1_send_receive_roundtrip (initState 8 64) (fun _ => 7) 5 6 (by decide)
      (by decide) (by decide) (by decide) (by decide) (by decide) (by decide)
      (by decide) (by decide) (fun _ => by show (7:Nat) < 256; decide)).2.1,
    (C1_send_receive_roundtrip (initState 8 64) (fun _ => 7) 5 6 (by decide)
      (by decide) (by decide) (by decide) (by decide) (by decide) (by decide)
      (by decide) (by decide) (fun _ => by show (7:Nat) < 256; decide)).2.2.1⟩

set_option maxRecDepth 4000 in
/-- C1 counterexample: at `message_size = 2^32 - 1` on a fresh queue of
capacity 4 and block size 64, the `uint32_t` wraparound in
`estimate_block_count` yields block count 1, so `send` accepts and places
the message, yet the matching receive delivers a single 224-byte chunk:
the concatenation of the delivered chunks has length 224, not 2^32 - 1 as
the claim requires, and does not match the stored `BlockHeader` size. -/
theorem C1_roundtrip_counterexample :
    (¬ (4 : Nat) < estimate_block_count 64 4294967295) ∧
    estimate_block_count 64 4294967295 ≤
      sub32 (initState 4 64).capacity (initState 4 64).size ∧
    send_step false .block_on_overflow (initState 4 64) (fun _ => 0)
        4294967295 =
      .placed (put_message (initState 4 64) (fun _ => 0) 4294967295
        (estimate_block_count 64 4294967295)) ∧
    readLE32 (put_message (initState 4 64) (fun _ => 0) 4294967295
        (estimate_block_count 64 4294967295)).mem 0 = 4294967295 ∧
    (headChunks (put_message (initState 4 64) (fun _ => 0) 4294967295
        (estimate_block_count 64 4294967295))).flatten.length = 224 ∧
    (224 : Nat) ≠ 4294967295 := by
  refine ⟨by decide, by decide, ?_, by decide, by decide, by decide⟩
  have h1 : ¬ (initState 4 64).capacity <
      estimate_block_count (initState 4 64).blockSize 4294967295 := by decide
  have h2 : estimate_block_count (initState 4 64).blockSize 4294967295 ≤
      sub32 (initState 4 64).capacity (initState 4 64).size := by decide
  have h3 : (initState 4 64).blockSize = 64 := rfl
  simp only [send_step]
  rw [if_neg h1, if_neg (by simp), if_pos h2, h3]

theorem sumBC_append (bs : Nat) (l1 l2 : List Nat) :
    sumBC bs (l1 ++ l2) = sumBC bs l1 + sumBC bs l2 := by
  simp [sumBC]

theorem sumBC_cons (bs m : Nat) (l : List Nat) :
    sumBC bs (m :: l) = estimate_block_count bs m + sumBC bs l := by
  simp [sumBC]

theorem offAt_append_left (bs : Nat) (l : List Nat) (m : Nat) {i : Nat}
    (h : i ≤ l.length) : offAt bs (l ++ [m]) i = offAt bs l i := by
  simp only [offAt]
  rw [List.take_append_of_le_length h]

theorem offAt_at_length (bs : Nat) (l : List Nat) (m : Nat) :
    offAt bs (l ++ [m]) l.length = sumBC bs l := by
  simp only [offAt]
  rw [List.take_append_of_le_length (Nat.le_refl _), List.take_length]

theorem offAt_cons_succ (bs m0 : Nat) (l : List Nat) (i : Nat) :
    offAt bs (m0 :: l) (i + 1) =
      estimate_block_count bs m0 + offAt bs l i := by
  simp only [offAt, List.take_succ_cons, sumBC_cons]

theorem offAt_zero (bs : Nat) (l : List Nat) : offAt bs l 0 = 0 := by
  simp [offAt, sumBC]

/-- Splitting the total block count at message `i`. -/
theorem sumBC_split (bs : Nat) (l : List Nat) (i : Nat) (h : i < l.length) :
    sumBC bs l = offAt bs l i + estimate_block_count bs l[i] +
      sumBC bs (l.drop (i + 1)) := by
  conv_lhs => rw [← List.take_append_drop i l]
  rw [sumBC_append, List.drop_eq_getElem_cons h, sumBC_cons]
  simp only [offAt]
  omega

theorem mul_add_div_eq {p u bs : Nat} (hbs : 0 < bs) :
    (p * bs + u) / bs = p + u / bs := by
  rw [Nat.add_comm, Nat.add_mul_div_right _ _ hbs, Nat.add_comm]

/-- Memory effect of `put_message`: the new message's block header reads
back as the payload length, and every byte whose block is not among the
`blockCount` blocks allocated to the new message (starting at `m_put_pos`,
wrapping modulo the capacity) is untouched. -/
theorem put_mem_cases (s : QState) (data : Nat → Nat) (msize bc : Nat)
    (hoh : get_header_overhead < s.blockSize)
    (hpos : s.putPos < s.capacity)
    (hcapbs : s.capacity * s.blockSize < U32)
    (hms32 : msize + get_header_overhead ≤ bc * s.blockSize)
    (hbc_cap : bc ≤ s.capacity)
    (hbc_pos : 0 < bc)
    (hmsU : msize < U32) :
    readLE32 (put_message s data msize bc).mem
      (s.putPos * s.blockSize) = msize ∧
    ∀ a, (∀ j, j < bc →
        a / s.blockSize ≠ (s.putPos + j) % s.capacity) →
      (put_message s data msize bc).mem a = s.mem a := by
  have hOH := get_header_overhead_eq
  have hbs0 : 0 < s.blockSize := by omega
  have hbs33 : 33 ≤ s.blockSize := by omega
  have hcap0 : 0 < s.capacity := by omega
  have hcap1 : s.capacity ≤ s.capacity * s.blockSize :=
    Nat.le_mul_of_pos_right _ hbs0
  have hcapU : s.capacity < U32 := by omega
  have hcap33 : s.capacity * 33 ≤ s.capacity * s.blockSize :=
    Nat.mul_le_mul_left _ hbs33
  have hposbc : s.putPos + bc < U32 := by omega
  have hmod : mod32 (s.putPos + bc) = s.putPos + bc := mod32_eq_of_lt hposbc
  have havail_le : (s.capacity - s.putPos) * s.blockSize ≤
      s.capacity * s.blockSize := Nat.mul_le_mul_right _ (by omega)
  have hbs_avail : 1 * s.blockSize ≤ (s.capacity - s.putPos) * s.blockSize :=
    Nat.mul_le_mul_right _ (by omega)
  have havail : availBytes s s.putPos =
      (s.capacity - s.putPos) * s.blockSize - get_header_overhead := by
    simp only [availBytes]
    rw [mod32_eq_of_lt (by omega), sub32_eq_sub (by omega) (by omega)]
  rw [hOH] at havail hms32
  obtain ⟨A, hAdef⟩ : ∃ x,
      (s.capacity - s.putPos) * s.blockSize - 32 = x := ⟨_, rfl⟩
  rw [hAdef] at havail
  obtain ⟨ws, hwsdef⟩ : ∃ x, min A msize = x := ⟨_, rfl⟩
  have hwsA_le : ws ≤ A := by
    rw [← hwsdef]
    exact Nat.min_le_left _ _
  obtain ⟨hws_le, hnwcase, htlcase⟩ :=
    put_arith hbs33 hpos hbc_cap hms32 hAdef hwsdef
  have hmem := put_message_mem s data msize bc
  rw [havail, hwsdef, hmod, hOH] at hmem
  constructor
  · -- the stored block header reads back as msize
    by_cases htail : ws < msize
    · obtain ⟨hwrap, hwsA, htailb⟩ := htlcase htail
      rw [hmem, if_pos ⟨hwrap, Nat.sub_pos_of_lt htail⟩]
      rw [readLE32_congr _ (fun a ha1 ha2 =>
        memcpy_outside (Or.inr (by clear * - ha1 htailb; omega)))]
      rw [readLE32_congr _ (fun a ha1 ha2 =>
        memcpy_outside (Or.inl (by clear * - ha1 ha2; omega)))]
      rw [readLE32_writeLE32, mod32_eq_of_lt hmsU]
    · have hws_eq : ws = msize :=
        Nat.le_antisymm hws_le (Nat.le_of_not_lt htail)
      rw [hmem, if_neg (by
        intro hc
        clear * - hc hws_eq
        omega)]
      rw [readLE32_congr _ (fun a ha1 ha2 =>
        memcpy_outside (Or.inl (by clear * - ha1 ha2; omega)))]
      rw [readLE32_writeLE32, mod32_eq_of_lt hmsU]
  · -- frame: bytes in other blocks are untouched
    intro a hnotin
    have hhdr_range : a < s.putPos * s.blockSize ∨
        s.putPos * s.blockSize + 4 ≤ a := by
      by_contra hcon
      push_neg at hcon
      obtain ⟨h1, h2⟩ := hcon
      have ha : a = s.putPos * s.blockSize + (a - s.putPos * s.blockSize) := by
        clear * - h1
        omega
      have hdiv : a / s.blockSize = s.putPos := by
        rw [ha]
        exact div_mul_add_lt hbs0 (by clear * - h1 h2 hbs33; omega)
      refine hnotin 0 hbc_pos ?_
      rw [hdiv, Nat.add_zero, Nat.mod_eq_of_lt hpos]
    have hchunk1_range : a < s.putPos * s.blockSize + 32 ∨
        s.putPos * s.blockSize + 32 + ws ≤ a := by
      by_contra hcon
      push_neg at hcon
      obtain ⟨h1, h2⟩ := hcon
      obtain ⟨u, hu⟩ : ∃ x, a - s.putPos * s.blockSize = x := ⟨_, rfl⟩
      have hub : u < bc * s.blockSize := by
        clear * - h1 h2 hws_le hms32 hu
        omega
      have hub2 : u < (s.capacity - s.putPos) * s.blockSize := by
        clear * - h1 h2 hwsA_le hAdef hbs_avail hbs33 hu
        omega
      have hj1 : u / s.blockSize < bc := by
        rw [Nat.div_lt_iff_lt_mul hbs0]
        exact hub
      have hj2 : u / s.blockSize < s.capacity - s.putPos := by
        rw [Nat.div_lt_iff_lt_mul hbs0]
        exact hub2
      have ha : a = s.putPos * s.blockSize + u := by
        clear * - h1 hu
        omega
      have hdiv : a / s.blockSize = s.putPos + u / s.blockSize := by
        rw [ha]
        exact mul_add_div_eq hbs0
      refine hnotin (u / s.blockSize) hj1 ?_
      rw [hdiv, Nat.mod_eq_of_lt (by clear * - hj2 hpos; omega)]
    by_cases htail : ws < msize
    · obtain ⟨hwrap, hwsA, htailb⟩ := htlcase htail
      have htail_range : msize - ws ≤ a := by
        by_contra hcon
        push_neg at hcon
        have hsm : (bc - (s.capacity - s.putPos)) * s.blockSize =
            bc * s.blockSize - (s.capacity - s.putPos) * s.blockSize :=
          Nat.sub_mul _ _ _
        have hDbs : msize - ws ≤
            (bc - (s.capacity - s.putPos)) * s.blockSize := by
          rw [hsm]
          clear * - hms32 hwsA hAdef
          omega
        have hjlt : a / s.blockSize < bc - (s.capacity - s.putPos) := by
          rw [Nat.div_lt_iff_lt_mul hbs0]
          clear * - hcon hDbs
          omega
        have hjbc : s.capacity - s.putPos + a / s.blockSize < bc := by
          clear * - hjlt hwrap hpos hbc_cap
          omega
        refine hnotin (s.capacity - s.putPos + a / s.blockSize) hjbc ?_
        have h1 : s.putPos + (s.capacity - s.putPos + a / s.blockSize) =
            s.capacity + a / s.blockSize := by
          clear * - hpos
          omega
        rw [h1, Nat.add_mod_left,
          Nat.mod_eq_of_lt (by clear * - hjlt hpos hbc_cap hwrap; omega)]
      rw [hmem, if_pos ⟨hwrap, Nat.sub_pos_of_lt htail⟩]
      rw [memcpy_outside (Or.inr (by clear * - htail_range; omega))]
      rw [memcpy_outside (by clear * - hchunk1_range; omega)]
      rw [writeLE32_outside (by clear * - hhdr_range; omega)]
    · have hws_eq : ws = msize :=
        Nat.le_antisymm hws_le (Nat.le_of_not_lt htail)
      rw [hmem, if_neg (by
        intro hc
        clear * - hc hws_eq
        omega)]
      rw [memcpy_outside (by clear * - hchunk1_range; omega)]
      rw [writeLE32_outside (by clear * - hhdr_range; omega)]

theorem estimate_pos {bs k : Nat} (hk32 : k < 32) (hbs : bs = 2 ^ k)
    {m : Nat} (hov : m + get_header_overhead + (bs - 1) < U32) :
    0 < estimate_block_count bs m := by
  subst hbs
  rw [estimate_block_count_eq m hk32 hov]
  have hOH := get_header_overhead_eq
  exact ceil_div_pos (by omega) (Nat.pos_pow_of_pos _ (by omega))

theorem WF_init (cap bs : Nat) (hcap0 : 0 < cap) :
    WF (initState cap bs) [] := by
  refine ⟨?_, ?_, ?_, ?_, ?_, ?_, ?_⟩
  · simp [initState, sumBC]
  · simp [initState]
  · exact hcap0
  · exact hcap0
  · simp [initState]
  · intro m hm
    simp at hm
  · intro i hi
    simp at hi

theorem WF_clear (s : QState) (hcap0 : 0 < s.capacity) :
    WF (clear_queue s) [] := by
  refine ⟨?_, ?_, ?_, ?_, ?_, ?_, ?_⟩
  · simp [clear_queue, sumBC]
  · simp [clear_queue]
  · exact hcap0
  · exact hcap0
  · simp [clear_queue]
  · intro m hm
    simp at hm
  · intro i hi
    simp at hi

theorem WF_put (s : QState) (msgs : List Nat) (data : Nat → Nat)
    (msize k : Nat)
    (hk32 : k < 32) (hbs : s.blockSize = 2 ^ k)
    (hoh : get_header_overhead < s.blockSize)
    (hcapbs : s.capacity * s.blockSize < U32)
    (hWF : WF s msgs)
    (hov : msize + get_header_overhead + (s.blockSize - 1) < U32)
    (hfree : estimate_block_count s.blockSize msize ≤
      sub32 s.capacity s.size) :
    WF (put_message s data msize (estimate_block_count s.blockSize msize))
      (msgs ++ [msize]) := by
  obtain ⟨hsize_eq, hsize_le, hget_lt, hput_lt, hput_eq, hmsg_ok, hhdr⟩ := hWF
  have hOH := get_header_overhead_eq
  have hbs0 : 0 < s.blockSize := by omega
  have hbs33 : 33 ≤ s.blockSize := by omega
  have hcap0 : 0 < s.capacity := by omega
  have hcap1 : s.capacity ≤ s.capacity * s.blockSize :=
    Nat.le_mul_of_pos_right _ hbs0
  have hcapU : s.capacity < U32 := by omega
  have hcap33 : s.capacity * 33 ≤ s.capacity * s.blockSize :=
    Nat.mul_le_mul_left _ hbs33
  rw [sub32_eq_sub hsize_le hcapU] at hfree
  obtain ⟨bc, hbcdef⟩ : ∃ x, estimate_block_count s.blockSize msize = x :=
    ⟨_, rfl⟩
  rw [hbcdef] at hfree ⊢
  have hov2 : msize + get_header_overhead + (2 ^ k - 1) < U32 := by
    rw [← hbs]
    exact hov
  have hbceq : bc = ceil_div (msize + get_header_overhead) s.blockSize := by
    rw [← hbcdef, hbs]
    exact estimate_block_count_eq msize hk32 hov2
  have hbc_pos : 0 < bc := by
    rw [hbceq]
    exact ceil_div_pos (by omega) hbs0
  have hms_le : msize + get_header_overhead ≤ bc * s.blockSize := by
    rw [hbceq]
    exact le_ceil_div_mul _ _ hbs0
  have hbc_cap : bc ≤ s.capacity := by omega
  have hmsU : msize < U32 := by omega
  have hposbc : s.putPos + bc < U32 := by omega
  have hszbc : s.size + bc < U32 := by omega
  have hm32 : mod32 (s.putPos + bc) = s.putPos + bc := mod32_eq_of_lt hposbc
  obtain ⟨hhd_new, hframe⟩ := put_mem_cases s data msize bc hoh hput_lt
    hcapbs hms_le hbc_cap hbc_pos hmsU
  refine ⟨?_, ?_, ?_, ?_, ?_, ?_, ?_⟩
  · -- size_eq
    rw [put_message_size, put_message_blockSize, sumBC_append]
    have h1 : sumBC s.blockSize [msize] = bc := by
      simp [sumBC, hbcdef]
    rw [h1, ← hsize_eq, mod32_eq_of_lt hszbc]
  · -- size_le
    rw [put_message_size, put_message_capacity, mod32_eq_of_lt hszbc]
    omega
  · -- get_lt
    rw [put_message_getPos, put_message_capacity]
    exact hget_lt
  · -- put_lt
    rw [put_message_putPos, put_message_capacity, hm32]
    split_ifs with h
    · omega
    · omega
  · -- put_eq
    rw [put_message_putPos, put_message_capacity, put_message_getPos,
      put_message_size, hm32, mod32_eq_of_lt hszbc]
    rw [show s.getPos + (s.size + bc) = s.getPos + s.size + bc by omega,
      ← mod_add_eq, ← hput_eq]
    split_ifs with h
    · rw [Nat.mod_eq_sub_mod h, Nat.mod_eq_of_lt (by omega)]
    · rw [Nat.mod_eq_of_lt (by omega)]
  · -- msg_ok
    intro m hm
    rw [put_message_blockSize]
    rcases List.mem_append.mp hm with h | h
    · exact hmsg_ok m h
    · rw [List.mem_singleton] at h
      subst h
      exact hov
  · -- hdr
    intro i hlen
    rw [List.length_append, List.length_singleton] at hlen
    rw [put_message_getPos, put_message_blockSize, put_message_capacity]
    rcases Nat.lt_or_ge i msgs.length with hi | hi
    · -- an old message: its header bytes are in other blocks
      rw [offAt_append_left _ _ _ (Nat.le_of_lt hi),
        List.getElem_append_left hi]
      rw [← hhdr i hi]
      apply readLE32_congr
      intro a ha1 ha2
      apply hframe
      intro j hj
      obtain ⟨P, hP⟩ : ∃ x,
          (s.getPos + offAt s.blockSize msgs i) % s.capacity = x := ⟨_, rfl⟩
      rw [hP] at ha1 ha2
      have hPlt : P < s.capacity := by
        rw [← hP]
        exact Nat.mod_lt _ hcap0
      have hdiva : a / s.blockSize = P := by
        have ha' : a = P * s.blockSize + (a - P * s.blockSize) := by
          clear * - ha1
          omega
        rw [ha']
        exact div_mul_add_lt hbs0 (by clear * - ha1 ha2 hbs33; omega)
      rw [hdiva, ← hP]
      have hsplit := sumBC_split s.blockSize msgs i hi
      have hest_pos : 0 < estimate_block_count s.blockSize msgs[i] :=
        estimate_pos hk32 hbs (hmsg_ok _ (List.getElem_mem hi))
      have hoff : offAt s.blockSize msgs i < s.size := by
        rw [hsize_eq, hsplit]
        clear * - hest_pos
        omega
      have hrw : (s.putPos + j) % s.capacity =
          (s.getPos + (s.size + j)) % s.capacity := by
        rw [hput_eq, mod_add_eq,
          show s.getPos + s.size + j = s.getPos + (s.size + j) by omega]
      rw [hrw]
      apply add_mod_distinct (by clear * - hoff hsize_le; omega)
        (by clear * - hj hbc_cap hfree hsize_le; omega)
        (by clear * - hoff; omega)
    · -- the newly stored message
      have hi_eq : i = msgs.length := by omega
      subst hi_eq
      rw [offAt_at_length, List.getElem_concat_length, ← hsize_eq,
        ← hput_eq]
      exact hhd_new
      rfl

theorem WF_get (s : QState) (msgs : List Nat) (k : Nat)
    (hk32 : k < 32) (hbs : s.blockSize = 2 ^ k)
    (hoh : get_header_overhead < s.blockSize)
    (hcapbs : s.capacity * s.blockSize < U32)
    (hWF : WF s msgs) (hsz : 0 < s.size) :
    WF (dequeue s) msgs.tail := by
  obtain ⟨hsize_eq, hsize_le, hget_lt, hput_lt, hput_eq, hmsg_ok, hhdr⟩ := hWF
  have hOH := get_header_overhead_eq
  have hbs0 : 0 < s.blockSize := by omega
  have hbs33 : 33 ≤ s.blockSize := by omega
  have hcap0 : 0 < s.capacity := by omega
  have hcap1 : s.capacity ≤ s.capacity * s.blockSize :=
    Nat.le_mul_of_pos_right _ hbs0
  have hcapU : s.capacity < U32 := by omega
  obtain ⟨m0, rest, rfl⟩ : ∃ m0 rest, msgs = m0 :: rest := by
    cases msgs with
    | nil =>
      rw [hsize_eq] at hsz
      simp [sumBC] at hsz
    | cons a l => exact ⟨a, l, rfl⟩
  have hhd0 := hhdr 0 (by simp)
  rw [offAt_zero, Nat.add_zero, Nat.mod_eq_of_lt hget_lt,
    List.getElem_cons_zero] at hhd0
  obtain ⟨b0, hb0⟩ : ∃ x, estimate_block_count s.blockSize m0 = x := ⟨_, rfl⟩
  have hb0_pos : 0 < b0 := by
    rw [← hb0]
    exact estimate_pos hk32 hbs (hmsg_ok m0 (by simp))
  have hb0_le : b0 ≤ s.size := by
    rw [hsize_eq, sumBC_cons, hb0]
    omega
  have hposb0 : s.getPos + b0 < U32 := by
    have hcap33 : s.capacity * 33 ≤ s.capacity * s.blockSize :=
      Nat.mul_le_mul_left _ hbs33
    omega
  have hm32 : mod32 (s.getPos + b0) = s.getPos + b0 := mod32_eq_of_lt hposb0
  have hszU : s.size < U32 := by omega
  have hgp : (dequeue s).getPos = (s.getPos + b0) % s.capacity := by
    rw [dequeue_getPos, hhd0, hb0, hm32]
    split_ifs with h
    · rw [Nat.mod_eq_sub_mod h, Nat.mod_eq_of_lt (by omega)]
    · rw [Nat.mod_eq_of_lt (by omega)]
  have hsd : (dequeue s).size = s.size - b0 := by
    rw [dequeue_size, hhd0, hb0, sub32_eq_sub hb0_le hszU]
  refine ⟨?_, ?_, ?_, ?_, ?_, ?_, ?_⟩
  · -- size_eq
    rw [hsd, dequeue_blockSize, List.tail_cons]
    rw [hsize_eq, sumBC_cons, hb0]
    omega
  · -- size_le
    rw [hsd, dequeue_capacity]
    omega
  · -- get_lt
    rw [hgp, dequeue_capacity]
    exact Nat.mod_lt _ hcap0
  · -- put_lt
    rw [dequeue_putPos, dequeue_capacity]
    exact hput_lt
  · -- put_eq
    rw [dequeue_putPos, dequeue_capacity, hgp, hsd]
    rw [mod_add_eq,
      show s.getPos + b0 + (s.size - b0) = s.getPos + s.size by omega]
    exact hput_eq
  · -- msg_ok
    intro m hm
    rw [dequeue_blockSize, List.tail_cons] at *
    exact hmsg_ok m (List.mem_cons_of_mem m0 hm)
  · -- hdr
    intro i hi
    simp only [List.tail_cons] at hi ⊢
    rw [dequeue_mem, dequeue_blockSize, dequeue_capacity, hgp]
    have h2 := hhdr (i + 1) (by simp; omega)
    rw [offAt_cons_succ, hb0, List.getElem_cons_succ] at h2
    rw [mod_add_eq,
      show s.getPos + b0 + offAt s.blockSize rest i =
        s.getPos + (b0 + offAt s.blockSize rest i) by omega]
    exact h2

/-- Every reachable state (in the no-overflow sending regime) carries the
structural invariant for some list of queued message sizes. -/
theorem Reach_WF {cap bs : Nat} (hG : GoodParams cap bs) (s : QState)
    (hr : Reach cap bs s) :
    s.capacity = cap ∧ s.blockSize = bs ∧ ∃ msgs, WF s msgs := by
  obtain ⟨hcap0, hoh, ⟨k, hk32, hbsk⟩, hcapbs⟩ := hG
  induction hr with
  | init => exact ⟨rfl, rfl, [], WF_init cap bs hcap0⟩
  | put s data msize hr hov hfree ih =>
    obtain ⟨hc, hb, msgs, hwf⟩ := ih
    refine ⟨?_, ?_, msgs ++ [msize], ?_⟩
    · rw [put_message_capacity]
      exact hc
    · rw [put_message_blockSize]
      exact hb
    · exact WF_put s msgs data msize k hk32 (by rw [hb]; exact hbsk)
        (by rw [hb]; exact hoh) (by rw [hc, hb]; exact hcapbs) hwf hov hfree
  | get s hr hsz ih =>
    obtain ⟨hc, hb, msgs, hwf⟩ := ih
    refine ⟨?_, ?_, msgs.tail, ?_⟩
    · rw [dequeue_capacity]
      exact hc
    · rw [dequeue_blockSize]
      exact hb
    · exact WF_get s msgs k hk32 (by rw [hb]; exact hbsk)
        (by rw [hb]; exact hoh) (by rw [hc, hb]; exact hcapbs) hwf hsz
  | clearq s hr ih =>
    obtain ⟨hc, hb, msgs, hwf⟩ := ih
    exact ⟨hc, hb, [], WF_clear s (by rw [hc]; exact hcap0)⟩

/-- C3 (amended): header bounds invariant, restricted to histories whose
accepted message sizes avoid the `uint32_t` wraparound inside
`estimate_block_count` (`msize + overhead + (block_size - 1) < 2^32`): in
every state of a well-formed queue reachable from a fresh queue by the
guarded header-mutating operations, `m_size ≤ m_capacity`,
`m_put_pos < m_capacity` and `m_get_pos < m_capacity`. -/
theorem C3_header_bounds (cap bs : Nat) (s : QState)
    (hG : GoodParams cap bs) (hr : Reach cap bs s) :
    s.size ≤ s.capacity ∧ s.putPos < s.capacity ∧ s.getPos < s.capacity := by
  obtain ⟨_, _, msgs, hwf⟩ := Reach_WF hG s hr
  exact ⟨hwf.size_le, hwf.put_lt, hwf.get_lt⟩

theorem C3_header_bounds_witness :
    GoodParams 4 64 ∧
      ((initState 4 64).size ≤ (initState 4 64).capacity ∧
        (initState 4 64).putPos < (initState 4 64).capacity ∧
        (initState 4 64).getPos < (initState 4 64).capacity) := by
  have hG : GoodParams 4 64 :=
    ⟨by decide, by decide, ⟨6, by decide, by decide⟩, by decide⟩
  exact ⟨hG, C3_header_bounds 4 64 (initState 4 64) hG Reach.init⟩

set_option maxRecDepth 8000 in
/-- C3 counterexample: under the operations with exactly the claimed
guards (`capacity - size ≥ block_count` for put, `size > 0` for get), the
bounds are violated.  On a fresh 4-block queue of block size 64, two
96-byte messages are enqueued, one is dequeued, and a message of size
`2^32 - 1` is accepted (its wrapped block estimate is 1, so the free-space
guard passes).  The accepted message's first `memcpy` corrupts the queued
message's block header; the bounds still hold at that point, but the next
dequeue reads the corrupted header and leaves `m_get_pos = 1023 ≥ 4`. -/
theorem C3_header_bounds_counterexample :
    ReachO 4 64 bounds_cx_s5 ∧
      (bounds_cx_s4.size ≤ bounds_cx_s4.capacity ∧
        bounds_cx_s4.putPos < bounds_cx_s4.capacity ∧
        bounds_cx_s4.getPos < bounds_cx_s4.capacity) ∧
      0 < bounds_cx_s4.size ∧
      bounds_cx_s5.getPos = 1023 ∧
      ¬ bounds_cx_s5.getPos < bounds_cx_s5.capacity := by
  refine ⟨?_, by decide, by decide, by decide, by decide⟩
  exact ReachO.get _
    (ReachO.put _ _ _
      (ReachO.get _
        (ReachO.put _ _ _
          (ReachO.put _ _ _ ReachO.init (by decide))
          (by decide))
        (by decide))
      (by decide))
    (by decide)

/-- C9 (amended): in every reachable state (in the no-overflow sending
regime) with `m_size > 0`, the head message's block count — recomputed by
`get_message` from the size stored in the head block header — is at most
`m_size`; equality occurs (e.g. for a single queued message), so the
source's assertion `block_count < m_size` is wrong and `≤` is the valid
bound. -/
theorem C9_head_block_count_le (cap bs : Nat) (s : QState)
    (hG : GoodParams cap bs) (hr : Reach cap bs s) (hsz : 0 < s.size) :
    estimate_block_count s.blockSize
        (readLE32 s.mem (s.getPos * s.blockSize)) ≤ s.size := by
  obtain ⟨_, _, msgs, hwf⟩ := Reach_WF hG s hr
  obtain ⟨hsize_eq, hsize_le, hget_lt, hput_lt, hput_eq, hmsg_ok, hhdr⟩ := hwf
  obtain ⟨m0, rest, rfl⟩ : ∃ m0 rest, msgs = m0 :: rest := by
    cases msgs with
    | nil =>
      rw [hsize_eq] at hsz
      simp [sumBC] at hsz
    | cons a l => exact ⟨a, l, rfl⟩
  have hhd0 := hhdr 0 (by simp)
  rw [offAt_zero, Nat.add_zero, Nat.mod_eq_of_lt hget_lt,
    List.getElem_cons_zero] at hhd0
  rw [hhd0, hsize_eq, sumBC_cons]
  omega

theorem C9_head_block_count_le_witness :
    (GoodParams 8 64 ∧ Reach 8 64 single_message_state ∧
        0 < single_message_state.size) ∧
      estimate_block_count single_message_state.blockSize
          (readLE32 single_message_state.mem
            (single_message_state.getPos * single_message_state.blockSize)) ≤
        single_message_state.size := by
  have hG : GoodParams 8 64 :=
    ⟨by decide, by decide, ⟨6, by decide, by decide⟩, by decide⟩
  have hr : Reach 8 64 single_message_state :=
    Reach.put _ _ _ Reach.init (by decide) (by decide)
  exact ⟨⟨hG, hr, by decide⟩,
    C9_head_block_count_le 8 64 single_message_state hG hr (by decide)⟩

/-- C9 counterexample: a fresh 8-block queue holding a single empty
message (block count 1, `m_size = 1`) is reachable — even in the
no-overflow regime — and is about to be dequeued (`m_size > 0`), yet the
head block count is not strictly less than `m_size`: the assertion
`block_count < m_size` in `get_message` fails. -/
theorem C9_assertion_counterexample :
    Reach 8 64 single_message_state ∧ 0 < single_message_state.size ∧
      ¬ estimate_block_count single_message_state.blockSize
            (readLE32 single_message_state.mem
              (single_message_state.getPos *
                single_message_state.blockSize)) <
          single_message_state.size := by
  exact ⟨Reach.put _ _ _ Reach.init (by decide) (by decide),
    by decide, by decide⟩

end BoostLog
